import Mathlib

/-!
Verification of the pixelation and dithering engine in image-to-pixel.js.

The development shallowly embeds the core of src/image-to-pixel.js:

* JavaScript numbers are modelled as Option Rat (JsNum below): some q is an
  ordinary number (floating-point arithmetic idealised as exact rational
  arithmetic) and none models NaN, as well as the undefined value produced by
  reading a typed array out of range, which turns into NaN as soon as it is
  used in arithmetic.  Arithmetic propagates none; every comparison involving
  none is false, exactly as NaN comparisons are in JavaScript.
* The RGBA pixel buffer (a Uint8ClampedArray) is a List Nat; writes clamp to
  255 and writes past the end of the buffer are dropped, as for typed arrays.
* The Float32Array error buffer is a List JsNum; out-of-range reads give
  undefined (none after arithmetic) and out-of-range compound assignments are
  dropped.
* Thrown exceptions are modelled with Except JsErr.  The constructor
  emptyPalette stands for the TypeError raised inside colorDistance when
  findClosestPaletteColor is called with an empty palette (palette[0] is
  undefined and reading a channel of undefined throws); unknownAlgorithm and
  invalidBayerType stand for the two explicit throw statements of the
  dispatch code; dimensionMismatch is named by the specification document but
  is never raised by the code.
-/

namespace I2P

/-- Errors surfaced by the embedded code.  See the module comment for the
correspondence with the JavaScript exceptions. -/
inductive JsErr where
  | emptyPalette : JsErr
  | unknownAlgorithm : String → JsErr
  | invalidBayerType : String → JsErr
  | typeError : JsErr
  | dimensionMismatch : JsErr
deriving DecidableEq

/-- A JavaScript number: some q is an ordinary number, none is NaN (or an
undefined read that is about to become NaN in arithmetic). -/
abbrev JsNum := Option ℚ

/-- Addition with NaN propagation. -/
def jsAdd : JsNum → JsNum → JsNum
  | some a, some b => some (a + b)
  | _, _ => none

/-- Subtraction with NaN propagation. -/
def jsSub : JsNum → JsNum → JsNum
  | some a, some b => some (a - b)
  | _, _ => none

/-- Multiplication with NaN propagation.  (JavaScript has 0 * NaN = NaN, which
this matches; none absorbs.) -/
def jsMul : JsNum → JsNum → JsNum
  | some a, some b => some (a * b)
  | _, _ => none

/-- Division with NaN propagation.  The embedded code only divides by nonzero
literals (16, 8, matrix sizes squared), so the rational convention for
division by zero is never exercised. -/
def jsDiv : JsNum → JsNum → JsNum
  | some a, some b => some (a / b)
  | _, _ => none

/-- Strict less-than; any comparison with NaN is false, as in JavaScript. -/
def jsLt : JsNum → JsNum → Bool
  | some a, some b => decide (a < b)
  | _, _ => false

/-- An RGB palette color as stored after hexToRgb: three natural channel
values (0..255 for real palettes). -/
abbrev Color := ℕ × ℕ × ℕ

/-- An RGB triple of JavaScript numbers, as manipulated by the algorithms. -/
abbrev JsColor := JsNum × JsNum × JsNum

/-- Injection of a palette color into the JavaScript number domain. -/
def colorToJs (c : Color) : JsColor := (some c.1, some c.2.1, some c.2.2)

/-- Injection of an exact rational color into the JavaScript number domain. -/
def qColor (c : ℚ × ℚ × ℚ) : JsColor := (some c.1, some c.2.1, some c.2.2)

/-- Embedding of colorDistance (image-to-pixel.js lines 826-832): squared
Euclidean distance, no square root. -/
def colorDistance (c1 c2 : JsColor) : JsNum :=
  jsAdd
    (jsAdd (jsMul (jsSub c1.1 c2.1) (jsSub c1.1 c2.1))
      (jsMul (jsSub c1.2.1 c2.2.1) (jsSub c1.2.1 c2.2.1)))
    (jsMul (jsSub c1.2.2 c2.2.2) (jsSub c1.2.2 c2.2.2))

/-- Pure rational squared distance between an exact color and a palette entry;
this is what colorDistance computes on NaN-free inputs. -/
def distQ (c : ℚ × ℚ × ℚ) (p : Color) : ℚ :=
  (c.1 - p.1) * (c.1 - p.1) + (c.2.1 - p.2.1) * (c.2.1 - p.2.1) +
    (c.2.2 - p.2.2) * (c.2.2 - p.2.2)

/-- The scanning loop of findClosestPaletteColor (lines 795-801): best
candidate so far, its distance, and the remaining palette entries.  The
candidate is replaced only on a strictly smaller distance, so the first entry
attaining the minimum wins. -/
def closestLoop (color : JsColor) : Color → JsNum → List Color → Color
  | best, _, [] => best
  | best, bestD, p :: ps =>
    let d := colorDistance color (colorToJs p)
    if jsLt d bestD then closestLoop color p d ps else closestLoop color best bestD ps

/-- Embedding of findClosestPaletteColor (lines 791-804).  On an empty palette
the JavaScript code reads palette[0] (undefined) and colorDistance then throws
a TypeError --- the failure the specification names EmptyPaletteError. -/
def findClosestPaletteColor (color : JsColor) (palette : List Color) : Except JsErr Color :=
  match palette with
  | [] => .error .emptyPalette
  | p :: ps => .ok (closestLoop color p (colorDistance color (colorToJs p)) ps)

/-- The value findClosestPaletteColor returns on a nonempty palette. -/
def nearestPure (color : JsColor) (palette : List Color) : Color :=
  match palette with
  | [] => (0, 0, 0)
  | p :: ps => closestLoop color p (colorDistance color (colorToJs p)) ps

theorem findClosest_cons (color : JsColor) (p : Color) (ps : List Color) :
    findClosestPaletteColor color (p :: ps) = .ok (nearestPure color (p :: ps)) := rfl

/-! Pixel buffer primitives. -/

/-- Writing a channel value into a Uint8ClampedArray clamps to 255 (all
written values are palette channels, hence nonnegative integers already). -/
def clampByte (n : ℕ) : ℕ := min n 255

/-- Reading data[i] from the RGBA buffer: a number when in range, undefined
(which behaves as none once in arithmetic) past the end. -/
def readByte (d : List ℕ) (i : ℕ) : JsNum := (d[i]?).map (fun n => (n : ℚ))

/-- Reading the RGB triple stored at data[idx..idx+2]. -/
def readRGB (d : List ℕ) (idx : ℕ) : JsColor :=
  (readByte d idx, readByte d (idx + 1), readByte d (idx + 2))

/-- Writing an RGB triple to data[idx..idx+2]: three clamped stores, each
silently dropped when out of range (List.set past the end is the identity,
matching typed-array stores). -/
def writeRGB (d : List ℕ) (idx : ℕ) (c : Color) : List ℕ :=
  ((d.set idx (clampByte c.1)).set (idx + 1) (clampByte c.2.1)).set (idx + 2)
    (clampByte c.2.2)

/-- Reading errorBuffer[i] from the Float32Array: the stored number when in
range, undefined (none) past the end. -/
def readErr (e : List JsNum) (i : ℕ) : JsNum := (e[i]?).getD none

/-- The compound assignment buffer[i] += v on the Float32Array: read, add,
store; entirely dropped when i is out of range, as for typed-array stores. -/
def addErrAt (e : List JsNum) (i : ℕ) (v : JsNum) : List JsNum :=
  match e[i]? with
  | some cur => e.set i (jsAdd cur v)
  | none => e

/-- Embedding of distributeError (lines 763-769): bounds-check the target
coordinates, then accumulate the three scaled error channels at the flattened
index. -/
def distributeError (buffer : List JsNum) (x y : ℤ) (quantError : JsColor) (factor : ℚ)
    (width height : ℕ) : List JsNum :=
  if x < 0 ∨ (width : ℤ) ≤ x ∨ y < 0 ∨ (height : ℤ) ≤ y then buffer
  else
    let idx := ((y * width + x) * 4).toNat
    addErrAt
      (addErrAt (addErrAt buffer idx (jsMul quantError.1 (some factor)))
        (idx + 1) (jsMul quantError.2.1 (some factor)))
      (idx + 2) (jsMul quantError.2.2 (some factor))

/-! Error-diffusion dithering.  floydSteinbergDithering (lines 651-689) and
atkinsonDithering (lines 579-619) are textually identical except for the list
of (dx, dy, factor) neighbour targets passed to distributeError, so both are
embedded through one parametrised body. -/

/-- The body of one iteration of the diffusion loops: read stored value plus
accumulated error, quantise, store the palette color, distribute the scaled
quantisation error to each neighbour in turn. -/
def diffuseStep (offsets : List (ℤ × ℤ × ℚ)) (width height : ℕ) (strength : ℚ)
    (pal : List Color) (s : List ℕ × List JsNum) (x y : ℕ) :
    Except JsErr (List ℕ × List JsNum) :=
  let idx := (y * width + x) * 4
  let r := jsAdd (readByte s.1 idx) (readErr s.2 idx)
  let g := jsAdd (readByte s.1 (idx + 1)) (readErr s.2 (idx + 1))
  let b := jsAdd (readByte s.1 (idx + 2)) (readErr s.2 (idx + 2))
  match findClosestPaletteColor (r, g, b) pal with
  | .error e => .error e
  | .ok c =>
    let d := writeRGB s.1 idx c
    let qe : JsColor :=
      (jsMul (jsSub r (some (c.1 : ℚ))) (some strength),
       jsMul (jsSub g (some (c.2.1 : ℚ))) (some strength),
       jsMul (jsSub b (some (c.2.2 : ℚ))) (some strength))
    let e := offsets.foldl
      (fun buf o => distributeError buf ((x : ℤ) + o.1) ((y : ℤ) + o.2.1) qe o.2.2 width height)
      s.2
    .ok (d, e)

/-- The shared shape of the two diffusion ditherers: a fresh zero error buffer
of the same length as the data (new Float32Array(data.length)), then the
nested row-major loops, returning the mutated data. -/
def diffusionDither (offsets : List (ℤ × ℤ × ℚ)) (data : List ℕ) (width height : ℕ)
    (strength : ℚ) (pal : List Color) : Except JsErr (List ℕ) := do
  let s ← (List.range height).foldlM
    (fun s y => (List.range width).foldlM (fun s x => diffuseStep offsets width height strength pal s x y) s)
    (data, List.replicate data.length (some (0 : ℚ)))
  pure s.1

/-- The Floyd-Steinberg targets and coefficients (lines 682-685): 7/16 right,
3/16 bottom-left, 5/16 bottom, 1/16 bottom-right. -/
def floydOffsets : List (ℤ × ℤ × ℚ) :=
  [(1, 0, 7/16), (-1, 1, 3/16), (0, 1, 5/16), (1, 1, 1/16)]

/-- The Atkinson targets (lines 610-615): six neighbours, 1/8 each. -/
def atkinsonOffsets : List (ℤ × ℤ × ℚ) :=
  [(1, 0, 1/8), (2, 0, 1/8), (-1, 1, 1/8), (0, 1, 1/8), (1, 1, 1/8), (0, 2, 1/8)]

/-- Embedding of floydSteinbergDithering (lines 651-689). -/
def floydSteinbergDithering (data : List ℕ) (width height : ℕ) (strength : ℚ)
    (pal : List Color) : Except JsErr (List ℕ) :=
  diffusionDither floydOffsets data width height strength pal

/-- Embedding of atkinsonDithering (lines 579-619). -/
def atkinsonDithering (data : List ℕ) (width height : ℕ) (strength : ℚ)
    (pal : List Color) : Except JsErr (List ℕ) :=
  diffusionDither atkinsonOffsets data width height strength pal

/-! Ordered (Bayer) dithering. -/

/-- Reading bayerMatrix[y % size][x % size].  When the matrix is empty the
JavaScript row lookup yields undefined and indexing into it throws; a missing
entry of a ragged row would merely be undefined, i.e. NaN in arithmetic.  All
matrices produced by getBayerMatrix are square and nonempty, so neither case
is reachable from the pipeline. -/
def readMatrixEntry (m : List (List ℕ)) (x y : ℕ) : Except JsErr JsNum :=
  match m[y % m.length]? with
  | none => .error .typeError
  | some row => .ok ((row[x % m.length]?).map (fun n => (n : ℚ)))

/-- The body of one iteration of the ordered-dithering loop (lines 722-740):
threshold from the matrix, shift every channel by
(threshold - 127.5) * strength, quantise, store. -/
def orderedStep (width height : ℕ) (strength : ℚ) (pal : List Color)
    (m : List (List ℕ)) (d : List ℕ) (x y : ℕ) : Except JsErr (List ℕ) :=
  let idx := (y * width + x) * 4
  let oldColor := readRGB d idx
  match readMatrixEntry m x y with
  | .error e => .error e
  | .ok entry =>
    let threshold :=
      jsMul (jsDiv (jsAdd entry (some (1/2 : ℚ))) (some ((m.length * m.length : ℕ) : ℚ)))
        (some (255 : ℚ))
    let shift := jsMul (jsSub threshold (some (255/2 : ℚ))) (some strength)
    let adjusted : JsColor :=
      (jsAdd oldColor.1 shift, jsAdd oldColor.2.1 shift, jsAdd oldColor.2.2 shift)
    match findClosestPaletteColor adjusted pal with
    | .error e => .error e
    | .ok c => .ok (writeRGB d idx c)

/-- Embedding of orderedDithering (lines 716-744). -/
def orderedDithering (data : List ℕ) (width height : ℕ) (strength : ℚ)
    (pal : List Color) (m : List (List ℕ)) : Except JsErr (List ℕ) :=
  (List.range height).foldlM
    (fun d y => (List.range width).foldlM (fun d x => orderedStep width height strength pal m d x y) d)
    data

/-! Flat palette quantisation. -/

/-- Embedding of applyPalette (lines 541-550).  The JavaScript loop walks the
buffer in place four bytes at a time; successive iterations touch disjoint
four-byte chunks and each chunk is read before it is written, so the loop is
embedded as a chunk recursion producing the new buffer.  Reads past the end of
a final short chunk give undefined (none) and writes past the end are dropped,
exactly as the typed-array loop behaves on a buffer whose length is not a
multiple of four. -/
def applyPalette (data : List ℕ) (pal : List Color) : Except JsErr (List ℕ) :=
  match data with
  | [] => .ok []
  | hd :: tl =>
    match findClosestPaletteColor (readRGB (hd :: tl) 0) pal with
    | .error e => .error e
    | .ok c =>
      match applyPalette ((hd :: tl).drop 4) pal with
      | .error e => .error e
      | .ok rest => .ok (writeRGB ((hd :: tl).take 4) 0 c ++ rest)
termination_by data.length
decreasing_by simp; omega

/-! The Bayer matrices and the pipeline dispatch. -/

/-- Embedding of getBayerMatrix (lines 275-310). -/
def getBayerMatrix (type : String) : Except JsErr (List (List ℕ)) :=
  if type = "2x2" then .ok [[0, 2], [3, 1]]
  else if type = "4x4" then .ok [[0, 8, 2, 10], [12, 4, 14, 6], [3, 11, 1, 9], [15, 7, 13, 5]]
  else if type = "8x8" then .ok
    [[0, 48, 12, 60, 3, 51, 15, 63],
     [32, 16, 44, 28, 35, 19, 47, 31],
     [8, 56, 4, 52, 11, 59, 7, 55],
     [40, 24, 36, 20, 43, 27, 39, 23],
     [2, 50, 14, 62, 1, 49, 13, 61],
     [34, 18, 46, 30, 33, 17, 45, 29],
     [10, 58, 6, 54, 9, 57, 5, 53],
     [42, 26, 38, 22, 41, 25, 37, 21]]
  else if type = "clustered 4x4" then .ok
    [[7, 13, 11, 4], [12, 16, 14, 8], [10, 15, 6, 2], [5, 9, 3, 1]]
  else .error (.invalidBayerType type)

/-- Embedding of the quantise/dither stage of pixelate (lines 195-218): the
strength is normalised to strength/100, and when palette colors were supplied
the lowercased dither name is dispatched, an unrecognised name throwing what
the specification calls UnknownAlgorithmError; with a palette and dither
"none" the flat quantiser runs; with no palette the buffer passes through
untouched. -/
def ditherStage (data : List ℕ) (width height : ℕ) (dither : String) (strength : ℚ)
    (paletteColors : Option (List Color)) : Except JsErr (List ℕ) :=
  let s := strength / 100
  match paletteColors with
  | some pal =>
    if dither.toLower ≠ "none" then
      if dither.toLower = "floyd-steinberg" then
        floydSteinbergDithering data width height s pal
      else if dither.toLower = "ordered" then
        match getBayerMatrix "8x8" with
        | .error e => .error e
        | .ok m => orderedDithering data width height s pal m
      else if dither.toLower = "4x4 bayer" then
        match getBayerMatrix "4x4" with
        | .error e => .error e
        | .ok m => orderedDithering data width height s pal m
      else if dither.toLower = "2x2 bayer" then
        match getBayerMatrix "2x2" with
        | .error e => .error e
        | .ok m => orderedDithering data width height s pal m
      else if dither.toLower = "clustered 4x4" then
        match getBayerMatrix "clustered 4x4" with
        | .error e => .error e
        | .ok m => orderedDithering data width height s pal m
      else if dither.toLower = "atkinson" then
        atkinsonDithering data width height s pal
      else .error (.unknownAlgorithm dither)
    else applyPalette data pal
  | none => .ok data

/-! Properties of the nearest-color scan. -/

theorem colorDistance_q (c : ℚ × ℚ × ℚ) (p : Color) :
    colorDistance (qColor c) (colorToJs p) = some (distQ c p) := rfl

theorem jsLt_some (a b : ℚ) : jsLt (some a) (some b) = decide (a < b) := rfl

/-- The scan keeps the first entry attaining the minimum: the result is no
farther than every scanned entry, and everything strictly before the returned
entry is strictly farther. -/
theorem closestLoop_spec (c : ℚ × ℚ × ℚ) :
    ∀ (rest : List Color) (best : Color),
      (∀ q ∈ best :: rest,
        distQ c (closestLoop (qColor c) best (some (distQ c best)) rest) ≤ distQ c q) ∧
      ∃ l1 l2,
        best :: rest = l1 ++ closestLoop (qColor c) best (some (distQ c best)) rest :: l2 ∧
        ∀ q ∈ l1,
          distQ c (closestLoop (qColor c) best (some (distQ c best)) rest) < distQ c q := by
  intro rest
  induction rest with
  | nil =>
    intro best
    refine ⟨?_, [], [], rfl, by simp⟩
    intro q hq
    simp only [List.mem_singleton] at hq
    simp [closestLoop, hq]
  | cons p ps ih =>
    intro b
    by_cases h : distQ c p < distQ c b
    · have hloop :
          closestLoop (qColor c) b (some (distQ c b)) (p :: ps) =
            closestLoop (qColor c) p (some (distQ c p)) ps := by
        simp [closestLoop, colorDistance_q, jsLt_some, h]
      obtain ⟨ihMin, l1, l2, ihSplit, ihStrict⟩ := ih p
      rw [hloop]
      refine ⟨?_, b :: l1, l2, by rw [List.cons_append, ← ihSplit], ?_⟩
      · intro e he
        rcases List.mem_cons.mp he with he | he
        · subst he
          exact le_of_lt (lt_of_le_of_lt (ihMin p (by simp)) h)
        · exact ihMin e he
      · intro e he
        rcases List.mem_cons.mp he with he | he
        · subst he
          exact lt_of_le_of_lt (ihMin p (by simp)) h
        · exact ihStrict e he
    · have hloop :
          closestLoop (qColor c) b (some (distQ c b)) (p :: ps) =
            closestLoop (qColor c) b (some (distQ c b)) ps := by
        simp [closestLoop, colorDistance_q, jsLt_some, h]
      obtain ⟨ihMin, l1, l2, ihSplit, ihStrict⟩ := ih b
      rw [hloop]
      constructor
      · intro e he
        rcases List.mem_cons.mp he with he | he
        · rw [he]
          exact ihMin b (by simp)
        · rcases List.mem_cons.mp he with he | he
          · rw [he]
            exact le_trans (ihMin b (by simp)) (not_lt.mp h)
          · exact ihMin e (List.mem_cons_of_mem b he)
      · cases l1 with
        | nil =>
          simp only [List.nil_append, List.cons.injEq] at ihSplit
          exact ⟨[], p :: ps, by rw [List.nil_append, ← ihSplit.1], by simp⟩
        | cons e0 l1x =>
          simp only [List.cons_append, List.cons.injEq] at ihSplit
          obtain ⟨he0, hps⟩ := ihSplit
          have hrb : distQ c (closestLoop (qColor c) b (some (distQ c b)) ps) < distQ c b := by
            conv_rhs => rw [he0]
            exact ihStrict e0 (by simp)
          refine ⟨b :: p :: l1x, l2, by rw [List.cons_append, List.cons_append, ← hps], ?_⟩
          intro e he
          rcases List.mem_cons.mp he with he | he
          · rw [he]; exact hrb
          · rcases List.mem_cons.mp he with he | he
            · rw [he]
              exact lt_of_lt_of_le hrb (not_lt.mp h)
            · exact ihStrict e (List.mem_cons_of_mem e0 he)

/-- Packaged form of closestLoop_spec for a nonempty palette. -/
theorem findClosest_min (c : ℚ × ℚ × ℚ) (p : Color) (ps : List Color) :
    ∃ r, findClosestPaletteColor (qColor c) (p :: ps) = .ok r ∧
      (∀ q ∈ p :: ps, distQ c r ≤ distQ c q) ∧
      ∃ l1 l2, p :: ps = l1 ++ r :: l2 ∧ ∀ q ∈ l1, distQ c r < distQ c q := by
  obtain ⟨hMin, l1, l2, hSplit, hStrict⟩ := closestLoop_spec c ps p
  exact ⟨closestLoop (qColor c) p (some (distQ c p)) ps, rfl, hMin, l1, l2, hSplit, hStrict⟩

/-- The exact rational color corresponding to an integer palette color. -/
def natColorQ (v : Color) : ℚ × ℚ × ℚ := ((v.1 : ℚ), (v.2.1 : ℚ), (v.2.2 : ℚ))

theorem qColor_natColorQ (v : Color) : qColor (natColorQ v) = colorToJs v := rfl

theorem distQ_self (v : Color) : distQ (natColorQ v) v = 0 := by
  simp [distQ, natColorQ]

theorem distQ_nonneg (c : ℚ × ℚ × ℚ) (p : Color) : 0 ≤ distQ c p :=
  add_nonneg (add_nonneg (mul_self_nonneg _) (mul_self_nonneg _)) (mul_self_nonneg _)

theorem distQ_zero_imp (v w : Color) (h : distQ (natColorQ v) w = 0) : w = v := by
  obtain ⟨v1, v2, v3⟩ := v
  obtain ⟨w1, w2, w3⟩ := w
  simp only [distQ, natColorQ] at h
  have n1 := mul_self_nonneg ((v1 : ℚ) - w1)
  have n2 := mul_self_nonneg ((v2 : ℚ) - w2)
  have n3 := mul_self_nonneg ((v3 : ℚ) - w3)
  have e1 : ((v1 : ℚ) - w1) * ((v1 : ℚ) - w1) = 0 := by linarith
  have e2 : ((v2 : ℚ) - w2) * ((v2 : ℚ) - w2) = 0 := by linarith
  have e3 : ((v3 : ℚ) - w3) * ((v3 : ℚ) - w3) = 0 := by linarith
  have c1 : (v1 : ℚ) = w1 := by have := mul_self_eq_zero.mp e1; linarith
  have c2 : (v2 : ℚ) = w2 := by have := mul_self_eq_zero.mp e2; linarith
  have c3 : (v3 : ℚ) = w3 := by have := mul_self_eq_zero.mp e3; linarith
  have d1 : v1 = w1 := Nat.cast_inj.mp c1
  have d2 : v2 = w2 := Nat.cast_inj.mp c2
  have d3 : v3 = w3 := Nat.cast_inj.mp c3
  simp [d1, d2, d3]

/-- A palette entry is a fixed point of the nearest-color lookup: the scan
returns a value at distance zero, and zero squared distance forces equality. -/
theorem findClosest_fixpoint (p : Color) (ps : List Color) (v : Color) (hv : v ∈ p :: ps) :
    findClosestPaletteColor (colorToJs v) (p :: ps) = .ok v := by
  obtain ⟨r, hok, hMin, _⟩ := findClosest_min (natColorQ v) p ps
  have hle : distQ (natColorQ v) r ≤ 0 := by
    have := hMin v hv
    rwa [distQ_self] at this
  have hzero : distQ (natColorQ v) r = 0 := le_antisymm hle (distQ_nonneg _ _)
  rw [qColor_natColorQ] at hok
  rw [hok, distQ_zero_imp v r hzero]

/-- C1: for every nonempty palette P and color C, findClosestPaletteColor
returns an entry of P whose squared Euclidean distance to C is minimal over P,
and among the entries attaining the minimum it returns the one at the
earliest index (everything strictly before the returned entry in P is
strictly farther from C). -/
theorem claim_C1_nearest_minimal (c : ℚ × ℚ × ℚ) (pal : List Color) (hp : pal ≠ []) :
    ∃ r, findClosestPaletteColor (qColor c) pal = .ok r ∧ r ∈ pal ∧
      (∀ q ∈ pal, distQ c r ≤ distQ c q) ∧
      ∃ l1 l2, pal = l1 ++ r :: l2 ∧ ∀ q ∈ l1, distQ c r < distQ c q := by
  match pal with
  | [] => exact absurd rfl hp
  | p :: ps =>
    obtain ⟨r, hok, hMin, l1, l2, hSplit, hStrict⟩ := findClosest_min c p ps
    refine ⟨r, hok, ?_, hMin, l1, l2, hSplit, hStrict⟩
    rw [hSplit]
    exact List.mem_append.mpr (Or.inr (by simp))

/-- Witness for C1 at a concrete input: color (0,0,0) against a palette with
a far entry first and a duplicated nearest entry; the first of the two tied
entries is returned. -/
theorem claim_C1_witness :
    ∃ r, findClosestPaletteColor (qColor (0, 0, 0)) [(3, 0, 0), (1, 0, 0), (1, 0, 0)] = .ok r ∧
      r ∈ [(3, 0, 0), (1, 0, 0), (1, 0, 0)] ∧
      (∀ q ∈ [(3, 0, 0), (1, 0, 0), (1, 0, 0)], distQ (0, 0, 0) r ≤ distQ (0, 0, 0) q) ∧
      ∃ l1 l2, [(3, 0, 0), (1, 0, 0), (1, 0, 0)] = l1 ++ r :: l2 ∧
        ∀ q ∈ l1, distQ (0, 0, 0) r < distQ (0, 0, 0) q :=
  claim_C1_nearest_minimal (0, 0, 0) [(3, 0, 0), (1, 0, 0), (1, 0, 0)] (by decide)

/-! Generic lemmas about monadic folds over Except. -/

theorem foldlM_head_error {σ α : Type} (f : σ → α → Except JsErr σ) (a : α) (l : List α)
    (s : σ) (e : JsErr) (hf : f s a = .error e) : (a :: l).foldlM f s = .error e := by
  rw [List.foldlM_cons, hf]
  rfl

theorem foldlM_total {σ α : Type} (f : σ → α → Except JsErr σ)
    (hf : ∀ s a, ∃ t, f s a = .ok t) : ∀ (l : List α) (s : σ), ∃ t, l.foldlM f s = .ok t := by
  intro l
  induction l with
  | nil => exact fun s => ⟨s, rfl⟩
  | cons a l ih =>
    intro s
    obtain ⟨t, ht⟩ := hf s a
    obtain ⟨u, hu⟩ := ih t
    refine ⟨u, ?_⟩
    rw [List.foldlM_cons, ht]
    exact hu

theorem foldlM_ok {σ α : Type} (f : σ → α → Except JsErr σ) (g : σ → α → σ)
    (hf : ∀ s a, f s a = .ok (g s a)) :
    ∀ (l : List α) (s : σ), l.foldlM f s = .ok (l.foldl g s) := by
  intro l
  induction l with
  | nil => exact fun s => rfl
  | cons a l ih =>
    intro s
    rw [List.foldlM_cons, hf s a, List.foldl_cons]
    exact ih (g s a)

/-! Totality of the individual steps on a nonempty palette. -/

theorem diffuseStep_ok (offsets : List (ℤ × ℤ × ℚ)) (width height : ℕ) (strength : ℚ)
    (p : Color) (ps : List Color) (s : List ℕ × List JsNum) (x y : ℕ) :
    ∃ t, diffuseStep offsets width height strength (p :: ps) s x y = .ok t :=
  ⟨_, rfl⟩

theorem readMatrixEntry_ok (m : List (List ℕ)) (hm : m ≠ []) (x y : ℕ) :
    ∃ v, readMatrixEntry m x y = .ok v := by
  have hlt : y % m.length < m.length := Nat.mod_lt _ (List.length_pos.mpr hm)
  rcases hrow : m[y % m.length]? with _ | row
  · rw [List.getElem?_eq_none_iff] at hrow
    omega
  · exact ⟨(row[x % m.length]?).map (fun n => (n : ℚ)), by simp only [readMatrixEntry, hrow]⟩

/-- The buffer produced by one ordered-dithering iteration, written as a pure
value (the matrix row lookup already resolved). -/
def orderedResult (width : ℕ) (strength : ℚ) (pal : List Color) (m : List (List ℕ))
    (row : List ℕ) (d : List ℕ) (x y : ℕ) : List ℕ :=
  let idx := (y * width + x) * 4
  let entry : JsNum := (row[x % m.length]?).map (fun n => (n : ℚ))
  let threshold :=
    jsMul (jsDiv (jsAdd entry (some (1/2 : ℚ))) (some ((m.length * m.length : ℕ) : ℚ)))
      (some (255 : ℚ))
  let shift := jsMul (jsSub threshold (some (255/2 : ℚ))) (some strength)
  let old := readRGB d idx
  writeRGB d idx
    (nearestPure (jsAdd old.1 shift, jsAdd old.2.1 shift, jsAdd old.2.2 shift) pal)

theorem orderedStep_eq (width height : ℕ) (strength : ℚ) (p : Color) (ps : List Color)
    (m : List (List ℕ)) (d : List ℕ) (x y : ℕ) (row : List ℕ)
    (hrow : m[y % m.length]? = some row) :
    orderedStep width height strength (p :: ps) m d x y =
      .ok (orderedResult width strength (p :: ps) m row d x y) := by
  simp only [orderedStep, readMatrixEntry, hrow, orderedResult, findClosest_cons]

theorem orderedStep_ok (width height : ℕ) (strength : ℚ) (p : Color) (ps : List Color)
    (m : List (List ℕ)) (hm : m ≠ []) (d : List ℕ) (x y : ℕ) :
    ∃ t, orderedStep width height strength (p :: ps) m d x y = .ok t := by
  have hlt : y % m.length < m.length := Nat.mod_lt _ (List.length_pos.mpr hm)
  rcases hrow : m[y % m.length]? with _ | row
  · rw [List.getElem?_eq_none_iff] at hrow
    omega
  · exact ⟨_, orderedStep_eq width height strength p ps m d x y row hrow⟩

theorem applyPalette_total (p : Color) (ps : List Color) :
    ∀ (n : ℕ) (data : List ℕ), data.length ≤ n → ∃ out, applyPalette data (p :: ps) = .ok out := by
  intro n
  induction n with
  | zero =>
    intro data h
    have hdata : data = [] := List.length_eq_zero.mp (Nat.le_zero.mp h)
    subst hdata
    exact ⟨[], by simp [applyPalette]⟩
  | succ n ih =>
    intro data h
    match data with
    | [] => exact ⟨[], by simp [applyPalette]⟩
    | hd :: tl =>
      simp only [List.length_cons] at h
      obtain ⟨out, hout⟩ := ih ((hd :: tl).drop 4) (by simp; omega)
      exact ⟨writeRGB ((hd :: tl).take 4) 0 (nearestPure (readRGB (hd :: tl) 0) (p :: ps)) ++ out,
        by rw [applyPalette, findClosest_cons, hout]⟩

theorem diffusionDither_total (offsets : List (ℤ × ℤ × ℚ)) (data : List ℕ) (width height : ℕ)
    (strength : ℚ) (p : Color) (ps : List Color) :
    ∃ out, diffusionDither offsets data width height strength (p :: ps) = .ok out := by
  obtain ⟨t, ht⟩ := foldlM_total
    (fun s y => (List.range width).foldlM
      (fun s x => diffuseStep offsets width height strength (p :: ps) s x y) s)
    (fun s y => foldlM_total _ (fun s x => diffuseStep_ok offsets width height strength p ps s x y) _ s)
    (List.range height) (data, List.replicate data.length (some (0 : ℚ)))
  refine ⟨t.1, ?_⟩
  simp only [diffusionDither]
  rw [ht]
  rfl

theorem orderedDithering_total (data : List ℕ) (width height : ℕ) (strength : ℚ)
    (p : Color) (ps : List Color) (m : List (List ℕ)) (hm : m ≠ []) :
    ∃ out, orderedDithering data width height strength (p :: ps) m = .ok out := by
  exact foldlM_total _
    (fun d y => foldlM_total _ (fun d x => orderedStep_ok width height strength p ps m hm d x y) _ d)
    (List.range height) data

/-! Empty-palette behaviour. -/

theorem applyPalette_emptyPal (hd : ℕ) (tl : List ℕ) :
    applyPalette (hd :: tl) [] = .error .emptyPalette := by
  rw [applyPalette]
  rfl

theorem diffusionDither_emptyPal (offsets : List (ℤ × ℤ × ℚ)) (data : List ℕ) (w h : ℕ)
    (strength : ℚ) (hw : 0 < w) (hh : 0 < h) :
    diffusionDither offsets data w h strength [] = .error .emptyPalette := by
  obtain ⟨w0, rfl⟩ : ∃ w0, w = w0 + 1 := ⟨w - 1, by omega⟩
  obtain ⟨h0, rfl⟩ : ∃ h0, h = h0 + 1 := ⟨h - 1, by omega⟩
  have hrow0 : (List.range (w0 + 1)).foldlM
      (fun s x => diffuseStep offsets (w0 + 1) (h0 + 1) strength [] s x 0)
      (data, List.replicate data.length (some (0 : ℚ))) = .error .emptyPalette := by
    rw [List.range_succ_eq_map]
    exact foldlM_head_error _ _ _ _ _ rfl
  have houter : (List.range (h0 + 1)).foldlM
      (fun s y => (List.range (w0 + 1)).foldlM
        (fun s x => diffuseStep offsets (w0 + 1) (h0 + 1) strength [] s x y) s)
      (data, List.replicate data.length (some (0 : ℚ))) = .error .emptyPalette := by
    rw [List.range_succ_eq_map h0]
    exact foldlM_head_error _ _ _ _ _ hrow0
  simp only [diffusionDither]
  rw [houter]
  rfl

theorem orderedDithering_emptyPal (data : List ℕ) (w h : ℕ) (strength : ℚ)
    (m : List (List ℕ)) (hm : m ≠ []) (hw : 0 < w) (hh : 0 < h) :
    orderedDithering data w h strength [] m = .error .emptyPalette := by
  obtain ⟨w0, rfl⟩ : ∃ w0, w = w0 + 1 := ⟨w - 1, by omega⟩
  obtain ⟨h0, rfl⟩ : ∃ h0, h = h0 + 1 := ⟨h - 1, by omega⟩
  have hlt : 0 % m.length < m.length := Nat.mod_lt _ (List.length_pos.mpr hm)
  rcases hrow : m[0 % m.length]? with _ | row
  · rw [List.getElem?_eq_none_iff] at hrow
    omega
  · have hstep : orderedStep (w0 + 1) (h0 + 1) strength [] m data 0 0 = .error .emptyPalette := by
      simp only [orderedStep, readMatrixEntry, hrow]
      rfl
    have hinner : (List.range (w0 + 1)).foldlM
        (fun d x => orderedStep (w0 + 1) (h0 + 1) strength [] m d x 0) data =
          .error .emptyPalette := by
      rw [List.range_succ_eq_map]
      exact foldlM_head_error _ _ _ _ _ hstep
    show (List.range (h0 + 1)).foldlM _ data = _
    rw [List.range_succ_eq_map h0]
    exact foldlM_head_error _ _ _ _ _ hinner

/-- C4 (corrected): findClosestPaletteColor always fails on an empty palette,
and each ditherer invoked with an empty palette fails with the empty-palette
error provided the buffer actually contains a pixel (at least one data byte
for the flat quantiser, positive width and height for the loop-based
ditherers).  A zero-pixel invocation returns successfully, see the
counterexample. -/
theorem claim_C4_empty_palette_amended :
    (∀ color : JsColor, findClosestPaletteColor color [] = .error .emptyPalette) ∧
    (∀ data : List ℕ, data ≠ [] → applyPalette data [] = .error .emptyPalette) ∧
    (∀ (data : List ℕ) (w h : ℕ) (s : ℚ), 0 < w → 0 < h →
      floydSteinbergDithering data w h s [] = .error .emptyPalette) ∧
    (∀ (data : List ℕ) (w h : ℕ) (s : ℚ), 0 < w → 0 < h →
      atkinsonDithering data w h s [] = .error .emptyPalette) ∧
    (∀ (data : List ℕ) (w h : ℕ) (s : ℚ) (m : List (List ℕ)), m ≠ [] → 0 < w → 0 < h →
      orderedDithering data w h s [] m = .error .emptyPalette) := by
  refine ⟨fun color => rfl, ?_, ?_, ?_, ?_⟩
  · intro data hne
    match data with
    | [] => exact absurd rfl hne
    | hd :: tl => exact applyPalette_emptyPal hd tl
  · exact fun data w h s hw hh => diffusionDither_emptyPal floydOffsets data w h s hw hh
  · exact fun data w h s hw hh => diffusionDither_emptyPal atkinsonOffsets data w h s hw hh
  · exact fun data w h s m hm hw hh => orderedDithering_emptyPal data w h s m hm hw hh

/-- Witness for C4 at concrete inputs: a 1x1 buffer with an empty palette
fails in every algorithm, and the nearest-color lookup fails for a concrete
color. -/
theorem claim_C4_witness :
    findClosestPaletteColor (colorToJs (5, 6, 7)) [] = .error .emptyPalette ∧
    applyPalette [1, 2, 3, 4] [] = .error .emptyPalette ∧
    floydSteinbergDithering [1, 2, 3, 4] 1 1 (1/2) [] = .error .emptyPalette ∧
    atkinsonDithering [1, 2, 3, 4] 1 1 (1/2) [] = .error .emptyPalette ∧
    orderedDithering [1, 2, 3, 4] 1 1 (1/2) [] [[0, 2], [3, 1]] = .error .emptyPalette :=
  ⟨claim_C4_empty_palette_amended.1 (colorToJs (5, 6, 7)),
   claim_C4_empty_palette_amended.2.1 [1, 2, 3, 4] (by decide),
   claim_C4_empty_palette_amended.2.2.1 [1, 2, 3, 4] 1 1 (1/2) (by decide) (by decide),
   claim_C4_empty_palette_amended.2.2.2.1 [1, 2, 3, 4] 1 1 (1/2) (by decide) (by decide),
   claim_C4_empty_palette_amended.2.2.2.2 [1, 2, 3, 4] 1 1 (1/2) [[0, 2], [3, 1]]
     (by decide) (by decide) (by decide)⟩

/-- Counterexample for C4 as frozen: a dithering invocation with an empty
palette on a buffer with zero pixels (0 x 0) returns successfully instead of
failing, because the failure only happens lazily when a pixel is quantised. -/
theorem claim_C4_counterexample :
    floydSteinbergDithering [] 0 0 1 [] = .ok [] := rfl

/-- C5 (corrected): none of the ditherers validates the buffer length against
width x height x 4.  With any nonempty palette every invocation returns
successfully --- including on dimension-mismatched buffers, where out-of-range
reads behave as undefined/NaN and out-of-range writes are dropped.  No
dimension-mismatch error exists anywhere in the code. -/
theorem claim_C5_no_dimension_check (data : List ℕ) (w h : ℕ) (s : ℚ) (pal : List Color)
    (hp : pal ≠ []) (m : List (List ℕ)) (hm : m ≠ []) :
    (∃ out, applyPalette data pal = .ok out) ∧
    (∃ out, floydSteinbergDithering data w h s pal = .ok out) ∧
    (∃ out, atkinsonDithering data w h s pal = .ok out) ∧
    (∃ out, orderedDithering data w h s pal m = .ok out) := by
  match pal with
  | [] => exact absurd rfl hp
  | p :: ps =>
    exact ⟨applyPalette_total p ps data.length data le_rfl,
      diffusionDither_total floydOffsets data w h s p ps,
      diffusionDither_total atkinsonOffsets data w h s p ps,
      orderedDithering_total data w h s p ps m hm⟩

/-- Witness for C5 on well-formed concrete inputs. -/
theorem claim_C5_witness :
    (∃ out, applyPalette [1, 2, 3, 4] [(0, 0, 0)] = .ok out) ∧
    (∃ out, floydSteinbergDithering [1, 2, 3, 4] 1 1 (1/2) [(0, 0, 0)] = .ok out) ∧
    (∃ out, atkinsonDithering [1, 2, 3, 4] 1 1 (1/2) [(0, 0, 0)] = .ok out) ∧
    (∃ out, orderedDithering [1, 2, 3, 4] 1 1 (1/2) [(0, 0, 0)] [[0, 2], [3, 1]] = .ok out) :=
  claim_C5_no_dimension_check [1, 2, 3, 4] 1 1 (1/2) [(0, 0, 0)] (by decide)
    [[0, 2], [3, 1]] (by decide)

/-- Counterexample for C5 as frozen: the specification scenario, a buffer of
length 10 declared as 2 x 2 (expected 16), does not fail with any error; the
Floyd-Steinberg ditherer processes it and returns a buffer.  (The two pixels
whose bytes exist are quantised; reads past byte 9 yield NaN channels, which
fall back to the first palette entry, and writes past byte 9 are dropped.) -/
theorem claim_C5_counterexample :
    floydSteinbergDithering [10, 20, 30, 40, 50, 60, 70, 80, 90, 100] 2 2 0 [(0, 0, 0)] =
      .ok [0, 0, 0, 40, 0, 0, 0, 80, 0, 0] := by
  with_unfolding_all rfl

/-- C6: dispatching the pipeline quantise/dither stage with palette colors
supplied and a dither name whose lowercasing is outside the recognised set
fails with the unknown-algorithm error, for every buffer, dimension pair,
strength, and palette. -/
theorem claim_C6_unknown_algorithm (data : List ℕ) (w h : ℕ) (strength : ℚ)
    (pal : List Color) (d : String)
    (hd : d.toLower ∉ (["none", "floyd-steinberg", "ordered", "4x4 bayer", "2x2 bayer",
      "clustered 4x4", "atkinson"] : List String)) :
    ditherStage data w h d strength (some pal) = .error (.unknownAlgorithm d) := by
  simp only [List.mem_cons, List.not_mem_nil, or_false, not_or] at hd
  obtain ⟨h1, h2, h3, h4, h5, h6, h7⟩ := hd
  simp only [ditherStage, if_pos h1, if_neg h2, if_neg h3, if_neg h4, if_neg h5, if_neg h6,
    if_neg h7]

/-- Witness for C6: the name "stucki" is not recognised. -/
theorem claim_C6_witness :
    ditherStage [1, 2, 3, 4] 1 1 "stucki" 50 (some [(0, 0, 0)]) =
      .error (.unknownAlgorithm "stucki") :=
  claim_C6_unknown_algorithm [1, 2, 3, 4] 1 1 50 [(0, 0, 0)] "stucki"
    (by rw [show "stucki".toLower = "stucki" from by with_unfolding_all rfl]; decide)

/-- C10: when no palette is supplied the quantise/dither stage passes the
buffer through unchanged, for any dither name (recognised or not) and any
strength, and raises no error; two invocations differing only in dither name
and strength therefore agree. -/
theorem claim_C10_no_palette_passthrough (data : List ℕ) (w h : ℕ) (d1 d2 : String)
    (s1 s2 : ℚ) :
    ditherStage data w h d1 s1 none = .ok data ∧
    ditherStage data w h d2 s2 none = ditherStage data w h d1 s1 none :=
  ⟨rfl, rfl⟩

/-! Pointwise description of buffer writes and of chunk-independent loops. -/

theorem writeRGB_length (d : List ℕ) (i : ℕ) (c : Color) :
    (writeRGB d i c).length = d.length := by
  simp [writeRGB]

theorem writeRGB_getElem?_other (d : List ℕ) (i : ℕ) (c : Color) (j : ℕ)
    (h0 : j ≠ i) (h1 : j ≠ i + 1) (h2 : j ≠ i + 2) : (writeRGB d i c)[j]? = d[j]? := by
  simp [writeRGB, List.getElem?_set_ne (Ne.symm h0), List.getElem?_set_ne (Ne.symm h1),
    List.getElem?_set_ne (Ne.symm h2)]

theorem writeRGB_getElem?_at0 (d : List ℕ) (i : ℕ) (c : Color) :
    (writeRGB d i c)[i]? = if i < d.length then some (clampByte c.1) else none := by
  have h1 : i + 1 ≠ i := by omega
  have h2 : i + 2 ≠ i := by omega
  simp [writeRGB, List.getElem?_set_ne h1, List.getElem?_set_ne h2, List.getElem?_set]

theorem writeRGB_getElem?_at1 (d : List ℕ) (i : ℕ) (c : Color) :
    (writeRGB d i c)[i + 1]? = if i + 1 < d.length then some (clampByte c.2.1) else none := by
  have h2 : i + 2 ≠ i + 1 := by omega
  simp [writeRGB, List.getElem?_set_ne h2, List.getElem?_set]

theorem writeRGB_getElem?_at2 (d : List ℕ) (i : ℕ) (c : Color) :
    (writeRGB d i c)[i + 2]? = if i + 2 < d.length then some (clampByte c.2.2) else none := by
  simp [writeRGB, List.getElem?_set]

/-- Reads of the three RGB positions of a chunk agree whenever the two
buffers agree pointwise at those positions. -/
theorem readRGB_congr (d1 d2 : List ℕ) (i : ℕ)
    (h0 : d1[i]? = d2[i]?) (h1 : d1[i + 1]? = d2[i + 1]?) (h2 : d1[i + 2]? = d2[i + 2]?) :
    readRGB d1 i = readRGB d2 i := by
  simp [readRGB, readByte, h0, h1, h2]

theorem readRGB_congr2 (d1 d2 : List ℕ) (i1 i2 : ℕ)
    (h0 : d1[i1]? = d2[i2]?) (h1 : d1[i1 + 1]? = d2[i2 + 1]?)
    (h2 : d1[i1 + 2]? = d2[i2 + 2]?) : readRGB d1 i1 = readRGB d2 i2 := by
  simp [readRGB, readByte, h0, h1, h2]

/-- One chunk-local quantisation step on the flattened pixel index p: read
the RGB triple at p*4, transform it with F, write it back. -/
def chunkStep (F : ℕ → JsColor → Color) (d : List ℕ) (p : ℕ) : List ℕ :=
  writeRGB d (p * 4) (F p (readRGB d (p * 4)))

theorem chunkFold_length (F : ℕ → JsColor → Color) :
    ∀ (n : ℕ) (d0 : List ℕ), ((List.range n).foldl (chunkStep F) d0).length = d0.length := by
  intro n
  induction n with
  | zero => intro d0; rfl
  | succ n ih =>
    intro d0
    rw [List.range_succ, List.foldl_append]
    simp [chunkStep, writeRGB_length, ih d0]

/-- The value of the sequential chunk loop at any position: positions inside
a processed chunk (and not the alpha byte) read as if only that single chunk
step had run on the original buffer; all other positions are untouched.  This
holds because chunk p only reads and writes bytes p*4..p*4+2, so the
sequential loop has no cross-chunk data flow. -/
theorem chunkFold_getElem? (F : ℕ → JsColor → Color) :
    ∀ (n : ℕ) (d0 : List ℕ) (j : ℕ),
      ((List.range n).foldl (chunkStep F) d0)[j]? =
        if j < n * 4 ∧ j % 4 ≠ 3 then (chunkStep F d0 (j / 4))[j]? else d0[j]? := by
  intro n
  induction n with
  | zero =>
    intro d0 j
    simp
  | succ n ih =>
    intro d0 j
    rw [List.range_succ, List.foldl_append]
    simp only [List.foldl_cons, List.foldl_nil]
    have hread : readRGB ((List.range n).foldl (chunkStep F) d0) (n * 4) = readRGB d0 (n * 4) := by
      apply readRGB_congr
      · rw [ih d0 (n * 4)]
        have : ¬(n * 4 < n * 4 ∧ n * 4 % 4 ≠ 3) := by omega
        rw [if_neg this]
      · rw [ih d0 (n * 4 + 1)]
        have : ¬(n * 4 + 1 < n * 4 ∧ (n * 4 + 1) % 4 ≠ 3) := by omega
        rw [if_neg this]
      · rw [ih d0 (n * 4 + 2)]
        have : ¬(n * 4 + 2 < n * 4 ∧ (n * 4 + 2) % 4 ≠ 3) := by omega
        rw [if_neg this]
    by_cases hj : n * 4 ≤ j ∧ j ≤ n * 4 + 2
    · have hdiv : j / 4 = n := by omega
      have hmod : j % 4 ≠ 3 := by omega
      have hcond : j < (n + 1) * 4 ∧ j % 4 ≠ 3 := by omega
      rw [if_pos hcond, hdiv]
      simp only [chunkStep, hread]
      set c := F n (readRGB d0 (n * 4)) with hc
      have hlen := chunkFold_length F n d0
      rcases Nat.lt_trichotomy j (n * 4 + 1) with hj0 | hj1 | hj2
      · have : j = n * 4 := by omega
        subst this
        rw [writeRGB_getElem?_at0, writeRGB_getElem?_at0, hlen]
      · subst hj1
        rw [writeRGB_getElem?_at1, writeRGB_getElem?_at1, hlen]
      · have : j = n * 4 + 2 := by omega
        subst this
        rw [writeRGB_getElem?_at2, writeRGB_getElem?_at2, hlen]
    · have hskip : ((chunkStep F ((List.range n).foldl (chunkStep F) d0) n))[j]? =
          ((List.range n).foldl (chunkStep F) d0)[j]? := by
        apply writeRGB_getElem?_other
        all_goals omega
      rw [hskip, ih d0 j]
      by_cases hin : j < n * 4 ∧ j % 4 ≠ 3
      · rw [if_pos hin, if_pos (by omega : j < (n + 1) * 4 ∧ j % 4 ≠ 3)]
      · rw [if_neg hin, if_neg (by omega : ¬(j < (n + 1) * 4 ∧ j % 4 ≠ 3))]

/-! Flattening the nested row/column loops to a single raster-order loop. -/

/-- Row-major (raster) order of the pixel coordinates of a width x height
grid. -/
def rasterOrder (w h : ℕ) : List (ℕ × ℕ) :=
  (List.range h).flatMap (fun y => (List.range w).map (fun x => (x, y)))

theorem rasterOrder_succ (w h : ℕ) :
    rasterOrder w (h + 1) = rasterOrder w h ++ (List.range w).map (fun x => (x, h)) := by
  simp [rasterOrder, List.range_succ]

theorem foldlM_nested_eq_raster {σ : Type} (f : σ → ℕ → ℕ → Except JsErr σ) (w : ℕ) :
    ∀ (h : ℕ) (s : σ),
      (List.range h).foldlM (fun s y => (List.range w).foldlM (fun s x => f s x y) s) s =
        (rasterOrder w h).foldlM (fun s p => f s p.1 p.2) s := by
  intro h
  induction h with
  | zero => intro s; rfl
  | succ h ih =>
    intro s
    rw [List.range_succ, List.foldlM_append, rasterOrder_succ, List.foldlM_append, ih s]
    apply bind_congr
    intro s2
    rw [List.foldlM_map]
    simp only [List.foldlM_cons, List.foldlM_nil, bind_pure]

theorem foldl_nested_eq_raster {σ : Type} (g : σ → ℕ → ℕ → σ) (w : ℕ) :
    ∀ (h : ℕ) (s : σ),
      (List.range h).foldl (fun s y => (List.range w).foldl (fun s x => g s x y) s) s =
        (rasterOrder w h).foldl (fun s p => g s p.1 p.2) s := by
  intro h
  induction h with
  | zero => intro s; rfl
  | succ h ih =>
    intro s
    rw [List.range_succ, List.foldl_append, rasterOrder_succ, List.foldl_append, ih s,
      List.foldl_map]
    simp only [List.foldl_cons, List.foldl_nil]

theorem rasterOrder_eq_map (w : ℕ) :
    ∀ h, rasterOrder w h = (List.range (w * h)).map (fun p => (p % w, p / w)) := by
  rcases Nat.eq_zero_or_pos w with hw | hw
  · subst hw
    intro h
    simp [rasterOrder]
  · intro h
    induction h with
    | zero => simp [rasterOrder]
    | succ h ih =>
      rw [rasterOrder_succ, ih, Nat.mul_succ, List.range_add, List.map_append, List.map_map]
      congr 1
      apply List.map_congr_left
      intro x hx
      rw [List.mem_range] at hx
      have hmod : (w * h + x) % w = x := by
        rw [Nat.mul_add_mod]
        exact Nat.mod_eq_of_lt hx
      have hdiv : (w * h + x) / w = h := by
        rw [Nat.mul_add_div hw]
        simp [Nat.div_eq_of_lt hx]
      simp [Function.comp, hmod, hdiv]

/-- The nested loops, flattened to a single loop over flat pixel indices. -/
theorem foldl_nested_eq_flat {σ : Type} (g : σ → ℕ → ℕ → σ) (w h : ℕ) (s : σ) :
    (List.range h).foldl (fun s y => (List.range w).foldl (fun s x => g s x y) s) s =
      (List.range (w * h)).foldl (fun s p => g s (p % w) (p / w)) s := by
  rw [foldl_nested_eq_raster, rasterOrder_eq_map, List.foldl_map]

theorem pixel_idx (w p : ℕ) : (p / w * w + p % w) * 4 = p * 4 := by
  rw [Nat.div_add_mod']

/-! Reduction of ordered dithering to the chunk-independent loop. -/

/-- The matrix row used for scanline y (total lookup; the row exists for
every nonempty matrix). -/
def rowAt (m : List (List ℕ)) (y : ℕ) : List ℕ := (m[y % m.length]?).getD []

/-- The additive channel shift ordered dithering applies at (x, y):
(threshold - 127.5) * strength with the threshold from the Bayer matrix. -/
def orderedShift (m : List (List ℕ)) (strength : ℚ) (x y : ℕ) : JsNum :=
  jsMul
    (jsSub
      (jsMul
        (jsDiv (jsAdd (((rowAt m y)[x % m.length]?).map (fun n => (n : ℚ))) (some (1/2 : ℚ)))
          (some ((m.length * m.length : ℕ) : ℚ)))
        (some (255 : ℚ)))
      (some (255/2 : ℚ)))
    (some strength)

theorem rowAt_eq (m : List (List ℕ)) (y : ℕ) (row : List ℕ)
    (hrow : m[y % m.length]? = some row) : rowAt m y = row := by
  simp [rowAt, hrow]

theorem orderedResult_shift (width : ℕ) (strength : ℚ) (pal : List Color)
    (m : List (List ℕ)) (d : List ℕ) (x y : ℕ) :
    orderedResult width strength pal m (rowAt m y) d x y =
      writeRGB d ((y * width + x) * 4)
        (nearestPure
          (jsAdd (readRGB d ((y * width + x) * 4)).1 (orderedShift m strength x y),
           jsAdd (readRGB d ((y * width + x) * 4)).2.1 (orderedShift m strength x y),
           jsAdd (readRGB d ((y * width + x) * 4)).2.2 (orderedShift m strength x y))
          pal) := rfl

theorem orderedStep_eq_rowAt (width height : ℕ) (strength : ℚ) (p : Color) (ps : List Color)
    (m : List (List ℕ)) (hm : m ≠ []) (d : List ℕ) (x y : ℕ) :
    orderedStep width height strength (p :: ps) m d x y =
      .ok (orderedResult width strength (p :: ps) m (rowAt m y) d x y) := by
  have hlt : y % m.length < m.length := Nat.mod_lt _ (List.length_pos.mpr hm)
  rcases hrow : m[y % m.length]? with _ | row
  · rw [List.getElem?_eq_none_iff] at hrow
    omega
  · rw [rowAt_eq m y row hrow]
    exact orderedStep_eq width height strength p ps m d x y row hrow

/-- The per-pixel transform of ordered dithering on flat pixel indices. -/
def orderedF (m : List (List ℕ)) (pal : List Color) (strength : ℚ) (w : ℕ) :
    ℕ → JsColor → Color := fun p c =>
  nearestPure
    (jsAdd c.1 (orderedShift m strength (p % w) (p / w)),
     jsAdd c.2.1 (orderedShift m strength (p % w) (p / w)),
     jsAdd c.2.2 (orderedShift m strength (p % w) (p / w)))
    pal

/-- Ordered dithering with a nonempty matrix and palette computes the
chunk-independent loop of orderedF. -/
theorem orderedDithering_eq_chunkFold (data : List ℕ) (w h : ℕ) (strength : ℚ)
    (p : Color) (ps : List Color) (m : List (List ℕ)) (hm : m ≠ []) :
    orderedDithering data w h strength (p :: ps) m =
      .ok ((List.range (w * h)).foldl (chunkStep (orderedF m (p :: ps) strength w)) data) := by
  have hnested : orderedDithering data w h strength (p :: ps) m =
      .ok ((List.range h).foldl
        (fun d y => (List.range w).foldl
          (fun d x => orderedResult w strength (p :: ps) m (rowAt m y) d x y) d) data) := by
    exact foldlM_ok _ _
      (fun d y => foldlM_ok _ _ (fun d2 x => orderedStep_eq_rowAt w h strength p ps m hm d2 x y)
        (List.range w) d)
      (List.range h) data
  rw [hnested, foldl_nested_eq_flat]
  have hfun : (fun (d : List ℕ) (q : ℕ) =>
      orderedResult w strength (p :: ps) m (rowAt m (q / w)) d (q % w) (q / w)) =
        chunkStep (orderedF m (p :: ps) strength w) := by
    funext d q
    simp only [orderedResult_shift, chunkStep, orderedF, pixel_idx]
  rw [hfun]

/-! Index arithmetic and in-range reads. -/

theorem pixel_lt {x w y h : ℕ} (hx : x < w) (hy : y < h) : y * w + x < w * h := by
  have h1 : y * w + x < (y + 1) * w := by
    rw [Nat.succ_mul]
    omega
  have h2 : (y + 1) * w ≤ h * w := Nat.mul_le_mul_right w hy
  rw [Nat.mul_comm w h]
  omega

theorem flatIdx_mod {x w : ℕ} (y : ℕ) (hx : x < w) : (y * w + x) % w = x := by
  rw [Nat.mul_comm y w, Nat.mul_add_mod]
  exact Nat.mod_eq_of_lt hx

theorem flatIdx_div {x w : ℕ} (y : ℕ) (hx : x < w) : (y * w + x) / w = y := by
  rw [Nat.mul_comm y w, Nat.mul_add_div (by omega)]
  simp [Nat.div_eq_of_lt hx]

theorem getElem?_some_getD (l : List ℕ) (i : ℕ) (h : i < l.length) :
    l[i]? = some (l.getD i 0) := by
  rw [List.getElem?_eq_getElem h, List.getD_eq_getElem?_getD, List.getElem?_eq_getElem h]
  rfl

/-- The exact rational RGB triple stored at a chunk whose three bytes are in
range. -/
def dataRGBQ (d : List ℕ) (idx : ℕ) : ℚ × ℚ × ℚ :=
  (((d.getD idx 0 : ℕ) : ℚ), ((d.getD (idx + 1) 0 : ℕ) : ℚ), ((d.getD (idx + 2) 0 : ℕ) : ℚ))

theorem readRGB_in_range (d : List ℕ) (idx : ℕ) (h : idx + 2 < d.length) :
    readRGB d idx = qColor (dataRGBQ d idx) := by
  have e0 := getElem?_some_getD d idx (by omega)
  have e1 := getElem?_some_getD d (idx + 1) (by omega)
  have e2 := getElem?_some_getD d (idx + 2) (by omega)
  simp only [readRGB, readByte, qColor, dataRGBQ]
  rw [e0, e1, e2]
  rfl

/-- All channels of every palette entry fit in a byte; true of every palette
the pipeline constructs (hexToRgb masks with 255). -/
def PaletteWF (pal : List Color) : Prop :=
  ∀ c ∈ pal, c.1 ≤ 255 ∧ c.2.1 ≤ 255 ∧ c.2.2 ≤ 255

theorem clampByte_of_le {n : ℕ} (h : n ≤ 255) : clampByte n = n := min_eq_left h

theorem nearestPure_mem (c : ℚ × ℚ × ℚ) (p : Color) (ps : List Color) :
    nearestPure (qColor c) (p :: ps) ∈ p :: ps := by
  obtain ⟨r, hok, _, l1, l2, hSplit, _⟩ := findClosest_min c p ps
  rw [findClosest_cons] at hok
  have : nearestPure (qColor c) (p :: ps) = r := by
    exact Except.ok.inj hok
  rw [this, hSplit]
  exact List.mem_append.mpr (Or.inr (by simp))

/-! The 2x2 Bayer instance, with the threshold formula as the specification
states it. -/

/-- The 2x2 Bayer matrix, exactly as the claim states it. -/
def bayer2x2 : List (List ℕ) := [[0, 2], [3, 1]]

theorem getBayerMatrix_2x2 : getBayerMatrix "2x2" = .ok bayer2x2 := rfl

/-- Threshold formula from the specification: (M[y mod 2][x mod 2] + 0.5) / 4
* 255. -/
def bayer2Threshold (x y : ℕ) : ℚ :=
  ((((bayer2x2.getD (y % 2) []).getD (x % 2) 0 : ℕ) : ℚ) + 1/2) / 4 * 255

/-- Channel perturbation from the specification: every channel moves by
(threshold - 127.5) * strength. -/
def adjust2x2 (c : ℚ × ℚ × ℚ) (x y : ℕ) (s : ℚ) : ℚ × ℚ × ℚ :=
  (c.1 + (bayer2Threshold x y - 255/2) * s,
   c.2.1 + (bayer2Threshold x y - 255/2) * s,
   c.2.2 + (bayer2Threshold x y - 255/2) * s)

theorem orderedShift_bayer2 (s : ℚ) (x y : ℕ) :
    orderedShift bayer2x2 s x y = some ((bayer2Threshold x y - 255/2) * s) := by
  rcases Nat.mod_two_eq_zero_or_one y with hy | hy <;>
    rcases Nat.mod_two_eq_zero_or_one x with hx | hx <;>
      simp [orderedShift, rowAt, bayer2x2, bayer2Threshold, hx, hy, jsAdd, jsSub, jsMul,
        jsDiv]

/-- C3: for the 2x2 Bayer ordered ditherer with matrix [[0,2],[3,1]], the
output RGB of the pixel at (x, y) is the nearest palette color of the input
RGB shifted per channel by (threshold - 127.5) * strength, where
threshold = (M[y mod 2][x mod 2] + 0.5) / 4 * 255; the result depends only on
that pixel's own input bytes, the matrix, and the palette. -/
theorem claim_C3_ordered_bayer2 (data : List ℕ) (w h : ℕ) (s : ℚ) (pal : List Color)
    (hp : pal ≠ []) (hWF : PaletteWF pal) (hlen : data.length = w * h * 4)
    (x y : ℕ) (hx : x < w) (hy : y < h) :
    ∃ out n,
      orderedDithering data w h s pal bayer2x2 = .ok out ∧
      findClosestPaletteColor
        (qColor (adjust2x2 (dataRGBQ data ((y * w + x) * 4)) x y s)) pal = .ok n ∧
      out[(y * w + x) * 4]? = some n.1 ∧
      out[(y * w + x) * 4 + 1]? = some n.2.1 ∧
      out[(y * w + x) * 4 + 2]? = some n.2.2 := by
  rcases pal with _ | ⟨p, ps⟩
  · exact absurd rfl hp
  have hm : bayer2x2 ≠ [] := by simp [bayer2x2]
  have hPlt : y * w + x < w * h := pixel_lt hx hy
  have hmul : (y * w + x + 1) * 4 ≤ w * h * 4 := Nat.mul_le_mul_right 4 hPlt
  have hidx2 : (y * w + x) * 4 + 2 < data.length := by rw [hlen]; omega
  have hadj : (jsAdd (readRGB data ((y * w + x) * 4)).1 (orderedShift bayer2x2 s x y),
      jsAdd (readRGB data ((y * w + x) * 4)).2.1 (orderedShift bayer2x2 s x y),
      jsAdd (readRGB data ((y * w + x) * 4)).2.2 (orderedShift bayer2x2 s x y)) =
        qColor (adjust2x2 (dataRGBQ data ((y * w + x) * 4)) x y s) := by
    rw [readRGB_in_range data ((y * w + x) * 4) hidx2, orderedShift_bayer2]
    simp [qColor, dataRGBQ, adjust2x2, jsAdd]
  have hF : orderedF bayer2x2 (p :: ps) s w (y * w + x) (readRGB data ((y * w + x) * 4)) =
      nearestPure (qColor (adjust2x2 (dataRGBQ data ((y * w + x) * 4)) x y s)) (p :: ps) := by
    simp only [orderedF, flatIdx_mod y hx, flatIdx_div y hx]
    rw [hadj]
  set n := nearestPure (qColor (adjust2x2 (dataRGBQ data ((y * w + x) * 4)) x y s)) (p :: ps)
    with hn
  have hnmem : n ∈ p :: ps := nearestPure_mem _ p ps
  obtain ⟨hb1, hb2, hb3⟩ := hWF n hnmem
  have hout := orderedDithering_eq_chunkFold data w h s p ps bayer2x2 hm
  refine ⟨_, n, hout, findClosest_cons _ p ps, ?_, ?_, ?_⟩
  · rw [chunkFold_getElem?]
    rw [if_pos (by constructor <;> omega)]
    have hdiv : ((y * w + x) * 4) / 4 = y * w + x := by omega
    rw [hdiv]
    simp only [chunkStep, hF]
    rw [writeRGB_getElem?_at0, if_pos (by omega), clampByte_of_le hb1]
  · rw [chunkFold_getElem?]
    rw [if_pos (by constructor <;> omega)]
    have hdiv : ((y * w + x) * 4 + 1) / 4 = y * w + x := by omega
    rw [hdiv]
    simp only [chunkStep, hF]
    rw [writeRGB_getElem?_at1, if_pos (by omega), clampByte_of_le hb2]
  · rw [chunkFold_getElem?]
    rw [if_pos (by constructor <;> omega)]
    have hdiv : ((y * w + x) * 4 + 2) / 4 = y * w + x := by omega
    rw [hdiv]
    simp only [chunkStep, hF]
    rw [writeRGB_getElem?_at2, if_pos (by omega), clampByte_of_le hb3]

/-- Witness for C3 at a concrete pixel: a 1x1 image with a two-color palette
and strength 1. -/
theorem claim_C3_witness :
    ∃ out n,
      orderedDithering [200, 100, 50, 9] 1 1 1 [(0, 0, 0), (255, 255, 255)] bayer2x2 =
        .ok out ∧
      findClosestPaletteColor
        (qColor (adjust2x2 (dataRGBQ [200, 100, 50, 9] ((0 * 1 + 0) * 4)) 0 0 1))
        [(0, 0, 0), (255, 255, 255)] = .ok n ∧
      out[(0 * 1 + 0) * 4]? = some n.1 ∧
      out[(0 * 1 + 0) * 4 + 1]? = some n.2.1 ∧
      out[(0 * 1 + 0) * 4 + 2]? = some n.2.2 :=
  claim_C3_ordered_bayer2 [200, 100, 50, 9] 1 1 1 [(0, 0, 0), (255, 255, 255)]
    (by decide) (by unfold PaletteWF; decide) (by decide) 0 0 (by decide) (by decide)

/-! The pure value computed by applyPalette, and its pointwise form. -/

/-- The buffer applyPalette produces (flat quantisation, chunk by chunk). -/
def apQuant (pal : List Color) (data : List ℕ) : List ℕ :=
  match data with
  | [] => []
  | hd :: tl =>
    writeRGB ((hd :: tl).take 4) 0 (nearestPure (readRGB (hd :: tl) 0) pal) ++
      apQuant pal ((hd :: tl).drop 4)
termination_by data.length
decreasing_by simp; omega

theorem applyPalette_apQuant (p : Color) (ps : List Color) :
    ∀ (n : ℕ) (data : List ℕ), data.length ≤ n →
      applyPalette data (p :: ps) = .ok (apQuant (p :: ps) data) := by
  intro n
  induction n with
  | zero =>
    intro data h
    have hdata : data = [] := List.length_eq_zero.mp (Nat.le_zero.mp h)
    subst hdata
    rw [applyPalette, apQuant]
  | succ n ih =>
    intro data h
    match data with
    | [] => rw [applyPalette, apQuant]
    | hd :: tl =>
      simp only [List.length_cons] at h
      rw [applyPalette, findClosest_cons, ih ((hd :: tl).drop 4) (by simp; omega), apQuant]

theorem writeRGB_nil (i : ℕ) (c : Color) : writeRGB [] i c = [] := by
  simp [writeRGB]

/-- Chunk-local writes to the four-byte prefix agree between the full buffer
and its first chunk. -/
theorem writeRGB_take4_getElem? (l : List ℕ) (c : Color) (j : ℕ) (hj : j < 4)
    (hjL : j < l.length) : (writeRGB (l.take 4) 0 c)[j]? = (writeRGB l 0 c)[j]? := by
  rcases (by omega : j = 0 ∨ j = 1 ∨ j = 2 ∨ j = 3) with rfl | rfl | rfl | rfl
  · have a : (writeRGB (l.take 4) 0 c)[0]? =
        if 0 < (l.take 4).length then some (clampByte c.1) else none :=
      writeRGB_getElem?_at0 (l.take 4) 0 c
    have b : (writeRGB l 0 c)[0]? = if 0 < l.length then some (clampByte c.1) else none :=
      writeRGB_getElem?_at0 l 0 c
    rw [a, b, List.length_take, if_pos (by omega), if_pos (by omega)]
  · have a : (writeRGB (l.take 4) 0 c)[1]? =
        if 1 < (l.take 4).length then some (clampByte c.2.1) else none :=
      writeRGB_getElem?_at1 (l.take 4) 0 c
    have b : (writeRGB l 0 c)[1]? = if 1 < l.length then some (clampByte c.2.1) else none :=
      writeRGB_getElem?_at1 l 0 c
    rw [a, b, List.length_take, if_pos (by omega), if_pos (by omega)]
  · have a : (writeRGB (l.take 4) 0 c)[2]? =
        if 2 < (l.take 4).length then some (clampByte c.2.2) else none :=
      writeRGB_getElem?_at2 (l.take 4) 0 c
    have b : (writeRGB l 0 c)[2]? = if 2 < l.length then some (clampByte c.2.2) else none :=
      writeRGB_getElem?_at2 l 0 c
    rw [a, b, List.length_take, if_pos (by omega), if_pos (by omega)]
  · rw [writeRGB_getElem?_other _ _ _ _ (by omega) (by omega) (by omega),
      writeRGB_getElem?_other _ _ _ _ (by omega) (by omega) (by omega),
      List.getElem?_take, if_pos (by omega)]

/-- Pointwise description of flat quantisation: every non-alpha byte of a
chunk reads as the single-chunk quantisation of the original buffer, every
alpha byte is untouched. -/
theorem apQuant_getElem? (pal : List Color) :
    ∀ (n : ℕ) (data : List ℕ), data.length ≤ n → ∀ j,
      (apQuant pal data)[j]? =
        if j % 4 ≠ 3 then (chunkStep (fun _ c => nearestPure c pal) data (j / 4))[j]?
        else data[j]? := by
  intro n
  induction n with
  | zero =>
    intro data h j
    have hdata : data = [] := List.length_eq_zero.mp (Nat.le_zero.mp h)
    subst hdata
    rw [apQuant]
    simp [chunkStep, writeRGB_nil]
  | succ n ih =>
    intro data h j
    match data with
    | [] =>
      rw [apQuant]
      simp [chunkStep, writeRGB_nil]
    | hd :: tl =>
      simp only [List.length_cons] at h
      set l := hd :: tl with hl
      have hL : l.length = tl.length + 1 := by rw [hl]; rfl
      have hchunklen :
          (writeRGB (l.take 4) 0 (nearestPure (readRGB l 0) pal)).length = min 4 l.length := by
        rw [writeRGB_length, List.length_take]
      rw [apQuant]
      rw [List.getElem?_append]
      rw [hchunklen]
      by_cases hjin : j < min 4 l.length
      · rw [if_pos hjin]
        have hj4 : j < 4 := by omega
        have hjL : j < l.length := by omega
        by_cases h3 : j % 4 = 3
        · rw [if_neg (by omega)]
          have hj3 : j = 3 := by omega
          subst hj3
          rw [writeRGB_getElem?_other _ _ _ _ (by omega) (by omega) (by omega)]
          rw [List.getElem?_take, if_pos (by omega)]
        · rw [if_pos h3]
          have hdiv : j / 4 = 0 := by omega
          rw [hdiv]
          simp only [chunkStep, Nat.zero_mul]
          exact writeRGB_take4_getElem? l _ j hj4 hjL
      · rw [if_neg hjin]
        by_cases h4 : 4 ≤ l.length
        · have hmin : min 4 l.length = 4 := by omega
          rw [hmin] at hjin ⊢
          have hj4 : 4 ≤ j := by omega
          rw [ih (l.drop 4) (by simp [hl]; omega) (j - 4)]
          have hlendrop : (l.drop 4).length = l.length - 4 := by simp
          by_cases h3 : j % 4 = 3
          · rw [if_neg (by omega), if_neg (by omega), List.getElem?_drop]
            congr 1
            omega
          · rw [if_pos (by omega), if_pos (by omega)]
            simp only [chunkStep]
            rcases (by omega : j % 4 = 0 ∨ j % 4 = 1 ∨ j % 4 = 2) with hm | hm | hm
            · obtain ⟨P, rfl⟩ : ∃ P, j = (P + 1) * 4 := ⟨j / 4 - 1, by omega⟩
              have e1 : (P + 1) * 4 - 4 = P * 4 := by omega
              have e2 : P * 4 / 4 * 4 = P * 4 := by omega
              have e3 : (P + 1) * 4 / 4 * 4 = (P + 1) * 4 := by omega
              rw [e1, e2, e3]
              have hdropread : readRGB (l.drop 4) (P * 4) = readRGB l ((P + 1) * 4) := by
                apply readRGB_congr2 <;> rw [List.getElem?_drop] <;> congr 1 <;> omega
              rw [hdropread]
              rw [writeRGB_getElem?_at0, writeRGB_getElem?_at0, hlendrop]
              by_cases hin : (P + 1) * 4 < l.length
              · rw [if_pos (by omega), if_pos hin]
              · rw [if_neg (by omega), if_neg hin]
            · obtain ⟨P, rfl⟩ : ∃ P, j = (P + 1) * 4 + 1 := ⟨j / 4 - 1, by omega⟩
              have e1 : (P + 1) * 4 + 1 - 4 = P * 4 + 1 := by omega
              have e2 : (P * 4 + 1) / 4 * 4 = P * 4 := by omega
              have e3 : ((P + 1) * 4 + 1) / 4 * 4 = (P + 1) * 4 := by omega
              rw [e1, e2, e3]
              have hdropread : readRGB (l.drop 4) (P * 4) = readRGB l ((P + 1) * 4) := by
                apply readRGB_congr2 <;> rw [List.getElem?_drop] <;> congr 1 <;> omega
              rw [hdropread]
              rw [writeRGB_getElem?_at1, writeRGB_getElem?_at1, hlendrop]
              by_cases hin : (P + 1) * 4 + 1 < l.length
              · rw [if_pos (by omega), if_pos hin]
              · rw [if_neg (by omega), if_neg hin]
            · obtain ⟨P, rfl⟩ : ∃ P, j = (P + 1) * 4 + 2 := ⟨j / 4 - 1, by omega⟩
              have e1 : (P + 1) * 4 + 2 - 4 = P * 4 + 2 := by omega
              have e2 : (P * 4 + 2) / 4 * 4 = P * 4 := by omega
              have e3 : ((P + 1) * 4 + 2) / 4 * 4 = (P + 1) * 4 := by omega
              rw [e1, e2, e3]
              have hdropread : readRGB (l.drop 4) (P * 4) = readRGB l ((P + 1) * 4) := by
                apply readRGB_congr2 <;> rw [List.getElem?_drop] <;> congr 1 <;> omega
              rw [hdropread]
              rw [writeRGB_getElem?_at2, writeRGB_getElem?_at2, hlendrop]
              by_cases hin : (P + 1) * 4 + 2 < l.length
              · rw [if_pos (by omega), if_pos hin]
              · rw [if_neg (by omega), if_neg hin]
        · have hmin : min 4 l.length = l.length := by omega
          rw [hmin] at hjin
          have hdrop : l.drop 4 = [] := List.drop_eq_nil_of_le (by omega)
          rw [hdrop, apQuant]
          have hnone : l[j]? = none := List.getElem?_eq_none (by omega)
          have hwnone : (writeRGB l (j / 4 * 4) (nearestPure (readRGB l (j / 4 * 4)) pal))[j]? =
              none := by
            apply List.getElem?_eq_none
            rw [writeRGB_length]
            omega
          by_cases h3 : j % 4 = 3
          · rw [if_neg (by omega), hnone]
            simp
          · rw [if_pos (by omega)]
            simp only [chunkStep]
            rw [hwnone]
            simp

/-! Error diffusion at strength zero degenerates to flat quantisation: the
quantisation error is exactly zero, so the error buffer never leaves its
initial all-zero state and each pixel is quantised from its own stored
bytes. -/

theorem foldl_fixed {α β : Type} (f : β → α → β) (b : β) (hb : ∀ a, f b a = b) :
    ∀ l : List α, l.foldl f b = b := by
  intro l
  induction l with
  | nil => rfl
  | cons a l ih => rw [List.foldl_cons, hb a, ih]

theorem foldl_preserves_length (f : List ℕ → ℕ → List ℕ)
    (hf : ∀ d a, (f d a).length = d.length) :
    ∀ (l : List ℕ) (d : List ℕ), (l.foldl f d).length = d.length := by
  intro l
  induction l with
  | nil => intro d; rfl
  | cons a l ih => intro d; rw [List.foldl_cons, ih (f d a), hf d a]

theorem addErrAt_replicate_zero (n i : ℕ) (f : ℚ) :
    addErrAt (List.replicate n (some (0 : ℚ))) i (jsMul (some 0) (some f)) =
      List.replicate n (some (0 : ℚ)) := by
  by_cases hi : i < n
  · have he : (List.replicate n (some (0 : ℚ)))[i]? = some (some 0) := by
      rw [List.getElem?_replicate, if_pos hi]
    unfold addErrAt
    rw [he]
    show (List.replicate n (some (0 : ℚ))).set i
        (jsAdd (some (0 : ℚ)) (jsMul (some 0) (some f))) = List.replicate n (some (0 : ℚ))
    have hv : jsAdd (some (0 : ℚ)) (jsMul (some 0) (some f)) = some (0 : ℚ) := by
      simp [jsAdd, jsMul]
    rw [hv, List.set_replicate_self]
  · have he : (List.replicate n (some (0 : ℚ)))[i]? = none := by
      rw [List.getElem?_replicate, if_neg hi]
    unfold addErrAt
    rw [he]

theorem distributeError_zero (n : ℕ) (x y : ℤ) (f : ℚ) (w h : ℕ) :
    distributeError (List.replicate n (some (0 : ℚ))) x y (some 0, some 0, some 0) f w h =
      List.replicate n (some (0 : ℚ)) := by
  unfold distributeError
  by_cases hb : x < 0 ∨ (w : ℤ) ≤ x ∨ y < 0 ∨ (h : ℤ) ≤ y
  · rw [if_pos hb]
  · rw [if_neg hb]
    simp only [addErrAt_replicate_zero]

/-- One diffusion step at strength zero: the pixel is quantised from its own
stored bytes and the zero error buffer is returned unchanged. -/
theorem diffuseStep_zero (offsets : List (ℤ × ℤ × ℚ)) (w h : ℕ) (p : Color) (ps : List Color)
    (d : List ℕ) (x y : ℕ) (hx : x < w) (hy : y < h) (hd : d.length = w * h * 4) :
    diffuseStep offsets w h 0 (p :: ps) (d, List.replicate (w * h * 4) (some (0 : ℚ))) x y =
      .ok (chunkStep (fun _ c => nearestPure c (p :: ps)) d (y * w + x),
        List.replicate (w * h * 4) (some (0 : ℚ))) := by
  have hPlt : y * w + x < w * h := pixel_lt hx hy
  have hmul : (y * w + x + 1) * 4 ≤ w * h * 4 := Nat.mul_le_mul_right 4 hPlt
  have hread : ∀ i, i ≥ (y * w + x) * 4 → i ≤ (y * w + x) * 4 + 2 →
      jsAdd (readByte d i) (readErr (List.replicate (w * h * 4) (some (0 : ℚ))) i) =
        some ((d.getD i 0 : ℕ) : ℚ) := by
    intro i hi1 hi2
    have hin : i < d.length := by omega
    have he : (List.replicate (w * h * 4) (some (0 : ℚ)))[i]? = some (some 0) := by
      rw [List.getElem?_replicate, if_pos (by omega)]
    rw [readByte, getElem?_some_getD d i hin, readErr, he]
    simp [jsAdd]
  have h0 := hread ((y * w + x) * 4) (by omega) (by omega)
  have h1 := hread ((y * w + x) * 4 + 1) (by omega) (by omega)
  have h2 := hread ((y * w + x) * 4 + 2) (by omega) (by omega)
  simp only [diffuseStep, h0, h1, h2, findClosest_cons]
  refine congrArg Except.ok (Prod.ext ?_ ?_)
  · dsimp only
    simp only [chunkStep]
    congr 1
    rw [readRGB_in_range d ((y * w + x) * 4) (by omega)]
    rfl
  · dsimp only
    have hqe : ∀ a b : ℚ, jsMul (jsSub (some a) (some b)) (some 0) = some 0 := by
      intro a b
      simp [jsSub, jsMul]
    rw [hqe, hqe, hqe]
    apply foldl_fixed
    intro o
    exact distributeError_zero (w * h * 4) _ _ o.2.2 w h

/-- The nested diffusion loops at strength zero compute the pure
chunk-quantisation loop, leaving the error buffer zero. -/
theorem diffusion_zero_inner (offsets : List (ℤ × ℤ × ℚ)) (w h : ℕ) (p : Color)
    (ps : List Color) (y : ℕ) (hy : y < h) :
    ∀ (xs : List ℕ), (∀ x ∈ xs, x < w) → ∀ (d : List ℕ), d.length = w * h * 4 →
      xs.foldlM (fun s x => diffuseStep offsets w h 0 (p :: ps) s x y)
          (d, List.replicate (w * h * 4) (some (0 : ℚ))) =
        .ok (xs.foldl (fun d x => chunkStep (fun _ c => nearestPure c (p :: ps)) d (y * w + x)) d,
          List.replicate (w * h * 4) (some (0 : ℚ))) := by
  intro xs
  induction xs with
  | nil => intro _ d _; rfl
  | cons x xs ih =>
    intro hxs d hd
    rw [List.foldlM_cons, diffuseStep_zero offsets w h p ps d x y (hxs x (by simp)) hy hd]
    show List.foldlM _ _ xs = _
    rw [List.foldl_cons]
    refine ih (fun a ha => hxs a (by simp [ha])) _ ?_
    simp only [chunkStep]
    rw [writeRGB_length]
    exact hd

theorem diffusion_zero_outer (offsets : List (ℤ × ℤ × ℚ)) (w h : ℕ) (p : Color)
    (ps : List Color) :
    ∀ (ys : List ℕ), (∀ y ∈ ys, y < h) → ∀ (d : List ℕ), d.length = w * h * 4 →
      ys.foldlM (fun s y => (List.range w).foldlM
          (fun s x => diffuseStep offsets w h 0 (p :: ps) s x y) s)
          (d, List.replicate (w * h * 4) (some (0 : ℚ))) =
        .ok (ys.foldl (fun d y => (List.range w).foldl
          (fun d x => chunkStep (fun _ c => nearestPure c (p :: ps)) d (y * w + x)) d) d,
          List.replicate (w * h * 4) (some (0 : ℚ))) := by
  intro ys
  induction ys with
  | nil => intro _ d _; rfl
  | cons y ys ih =>
    intro hys d hd
    rw [List.foldlM_cons]
    rw [diffusion_zero_inner offsets w h p ps y (hys y (by simp)) (List.range w)
      (fun x hx => List.mem_range.mp hx) d hd]
    show List.foldlM _ _ ys = _
    rw [List.foldl_cons]
    refine ih (fun a ha => hys a (by simp [ha])) _ ?_
    rw [foldl_preserves_length]
    · exact hd
    · intro d2 a
      simp only [chunkStep]
      rw [writeRGB_length]

/-- Any diffusion ditherer at strength 0 computes flat quantisation of each
chunk from the original bytes. -/
theorem diffusionDither_zero (offsets : List (ℤ × ℤ × ℚ)) (data : List ℕ) (w h : ℕ)
    (p : Color) (ps : List Color) (hlen : data.length = w * h * 4) :
    diffusionDither offsets data w h 0 (p :: ps) =
      .ok ((List.range (w * h)).foldl (chunkStep (fun _ c => nearestPure c (p :: ps))) data) := by
  simp only [diffusionDither]
  rw [hlen]
  rw [diffusion_zero_outer offsets w h p ps (List.range h) (fun y hy => List.mem_range.mp hy)
    data hlen]
  show Except.ok _ = _
  congr 1
  rw [foldl_nested_eq_flat]
  have hfun : (fun (d : List ℕ) (q : ℕ) =>
      chunkStep (fun _ c => nearestPure c (p :: ps)) d (q / w * w + q % w)) =
        fun (d : List ℕ) (q : ℕ) => chunkStep (fun _ c => nearestPure c (p :: ps)) d q := by
    funext d q
    rw [Nat.div_add_mod']
  rw [hfun]

/-- The chunk-quantisation loop agrees with apQuant on well-formed buffers. -/
theorem quantFold_eq_apQuant (pal : List Color) (data : List ℕ) (w h : ℕ)
    (hlen : data.length = w * h * 4) :
    (List.range (w * h)).foldl (chunkStep (fun _ c => nearestPure c pal)) data =
      apQuant pal data := by
  apply List.ext_getElem?
  intro j
  rw [chunkFold_getElem?, apQuant_getElem? pal data.length data le_rfl j]
  by_cases h3 : j % 4 = 3
  · rw [if_neg (by omega), if_neg (by omega)]
  · by_cases hj : j < w * h * 4
    · rw [if_pos (by omega), if_pos (by omega)]
    · rw [if_neg (by omega), if_pos (by omega)]
      have hnone : data[j]? = none := List.getElem?_eq_none (by omega)
      have hwnone : (chunkStep (fun _ c => nearestPure c pal) data (j / 4))[j]? = none := by
        apply List.getElem?_eq_none
        simp only [chunkStep]
        rw [writeRGB_length]
        omega
      rw [hnone, hwnone]

/-- C7: at strength zero both diffusion ditherers return exactly the buffer
flat quantisation produces, for every well-formed buffer and nonempty
palette. -/
theorem claim_C7_strength_zero (data : List ℕ) (w h : ℕ) (pal : List Color)
    (hp : pal ≠ []) (hlen : data.length = w * h * 4) :
    floydSteinbergDithering data w h 0 pal = applyPalette data pal ∧
    atkinsonDithering data w h 0 pal = applyPalette data pal := by
  rcases pal with _ | ⟨p, ps⟩
  · exact absurd rfl hp
  rw [applyPalette_apQuant p ps data.length data le_rfl]
  constructor
  · rw [floydSteinbergDithering, diffusionDither_zero floydOffsets data w h p ps hlen,
      quantFold_eq_apQuant (p :: ps) data w h hlen]
  · rw [atkinsonDithering, diffusionDither_zero atkinsonOffsets data w h p ps hlen,
      quantFold_eq_apQuant (p :: ps) data w h hlen]

/-- Witness for C7 on a concrete 1x2 buffer. -/
theorem claim_C7_witness :
    floydSteinbergDithering [10, 20, 30, 40, 200, 150, 100, 50] 1 2 0
        [(0, 0, 0), (255, 255, 255)] =
      applyPalette [10, 20, 30, 40, 200, 150, 100, 50] [(0, 0, 0), (255, 255, 255)] ∧
    atkinsonDithering [10, 20, 30, 40, 200, 150, 100, 50] 1 2 0
        [(0, 0, 0), (255, 255, 255)] =
      applyPalette [10, 20, 30, 40, 200, 150, 100, 50] [(0, 0, 0), (255, 255, 255)] :=
  claim_C7_strength_zero [10, 20, 30, 40, 200, 150, 100, 50] 1 2
    [(0, 0, 0), (255, 255, 255)] (by decide) (by decide)

/-! Alpha preservation: every write in every algorithm targets the three RGB
bytes of a chunk, never the byte at index 3 mod 4. -/

theorem foldlM_preserves {σ α : Type} (f : σ → α → Except JsErr σ) (Q : σ → Prop)
    (hf : ∀ s a t, f s a = .ok t → Q s → Q t) :
    ∀ (l : List α) (s t : σ), l.foldlM f s = .ok t → Q s → Q t := by
  intro l
  induction l with
  | nil =>
    intro s t h hQ
    have h2 : (Except.ok s : Except JsErr σ) = .ok t := h
    rw [← Except.ok.inj h2]
    exact hQ
  | cons a l ih =>
    intro s t h hQ
    rw [List.foldlM_cons] at h
    rcases hfa : f s a with e | u
    · rw [hfa] at h
      have h2 : (Except.error e : Except JsErr σ) = .ok t := h
      cases h2
    · rw [hfa] at h
      have h2 : l.foldlM f u = .ok t := h
      exact ih u t h2 (hf s a u hfa hQ)

theorem diffuseStep_alpha (offsets : List (ℤ × ℤ × ℚ)) (w h : ℕ) (strength : ℚ)
    (pal : List Color) (s : List ℕ × List JsNum) (x y : ℕ)
    (t : List ℕ × List JsNum) (hstep : diffuseStep offsets w h strength pal s x y = .ok t)
    (j : ℕ) (hj : j % 4 = 3) : t.1[j]? = s.1[j]? := by
  rcases pal with _ | ⟨p, ps⟩
  · have h2 : (Except.error JsErr.emptyPalette : Except JsErr (List ℕ × List JsNum)) = .ok t :=
      hstep
    cases h2
  · simp only [diffuseStep, findClosest_cons] at hstep
    have ht := Except.ok.inj hstep
    rw [← ht]
    exact writeRGB_getElem?_other _ _ _ _ (by omega) (by omega) (by omega)

theorem orderedStep_alpha (w h : ℕ) (strength : ℚ) (pal : List Color) (m : List (List ℕ))
    (d : List ℕ) (x y : ℕ) (t : List ℕ)
    (hstep : orderedStep w h strength pal m d x y = .ok t) (j : ℕ) (hj : j % 4 = 3) :
    t[j]? = d[j]? := by
  rcases hrm : readMatrixEntry m x y with e | v
  · simp only [orderedStep, hrm] at hstep
    cases hstep
  · rcases pal with _ | ⟨p, ps⟩
    · simp only [orderedStep, hrm] at hstep
      have h2 : (Except.error JsErr.emptyPalette : Except JsErr (List ℕ)) = .ok t := hstep
      cases h2
    · simp only [orderedStep, hrm, findClosest_cons] at hstep
      have ht := Except.ok.inj hstep
      rw [← ht]
      exact writeRGB_getElem?_other _ _ _ _ (by omega) (by omega) (by omega)

theorem diffusion_alpha (offsets : List (ℤ × ℤ × ℚ)) (data : List ℕ) (w h : ℕ)
    (strength : ℚ) (pal : List Color) (out : List ℕ) (j : ℕ) (hj : j % 4 = 3)
    (hok : diffusionDither offsets data w h strength pal = .ok out) : out[j]? = data[j]? := by
  rcases hfold : (List.range h).foldlM
      (fun s y => (List.range w).foldlM
        (fun s x => diffuseStep offsets w h strength pal s x y) s)
      (data, List.replicate data.length (some (0 : ℚ))) with e | sf
  · simp only [diffusionDither] at hok
    rw [hfold] at hok
    have h2 : (Except.error e : Except JsErr (List ℕ)) = .ok out := hok
    cases h2
  · simp only [diffusionDither] at hok
    rw [hfold] at hok
    have h2 : (Except.ok sf.1 : Except JsErr (List ℕ)) = .ok out := hok
    rw [← Except.ok.inj h2]
    exact foldlM_preserves _ (fun s => s.1[j]? = data[j]?)
      (fun s a t hin hQ => foldlM_preserves _ (fun s2 => s2.1[j]? = data[j]?)
        (fun s2 x t2 hst hq2 =>
          (diffuseStep_alpha offsets w h strength pal s2 x a t2 hst j hj).trans hq2)
        (List.range w) s t hin hQ)
      (List.range h) _ sf hfold rfl

/-- C8: flat quantisation and all three dithering loops leave every alpha
byte (index 3 mod 4) of the buffer unchanged; only RGB bytes are written. -/
theorem claim_C8_alpha_preserved :
    (∀ (data : List ℕ) (pal : List Color) (out : List ℕ) (j : ℕ), j % 4 = 3 →
      applyPalette data pal = .ok out → out[j]? = data[j]?) ∧
    (∀ (data : List ℕ) (w h : ℕ) (s : ℚ) (pal : List Color) (out : List ℕ) (j : ℕ),
      j % 4 = 3 → floydSteinbergDithering data w h s pal = .ok out → out[j]? = data[j]?) ∧
    (∀ (data : List ℕ) (w h : ℕ) (s : ℚ) (pal : List Color) (out : List ℕ) (j : ℕ),
      j % 4 = 3 → atkinsonDithering data w h s pal = .ok out → out[j]? = data[j]?) ∧
    (∀ (data : List ℕ) (w h : ℕ) (s : ℚ) (pal : List Color) (m : List (List ℕ))
      (out : List ℕ) (j : ℕ),
      j % 4 = 3 → orderedDithering data w h s pal m = .ok out → out[j]? = data[j]?) := by
  refine ⟨?_, ?_, ?_, ?_⟩
  · intro data pal out j hj hok
    rcases data with _ | ⟨hd, tl⟩
    · rw [applyPalette] at hok
      rw [← Except.ok.inj hok]
    · rcases pal with _ | ⟨p, ps⟩
      · rw [applyPalette_emptyPal hd tl] at hok
        cases hok
      · rw [applyPalette_apQuant p ps (hd :: tl).length (hd :: tl) le_rfl] at hok
        rw [← Except.ok.inj hok]
        rw [apQuant_getElem? (p :: ps) (hd :: tl).length (hd :: tl) le_rfl j]
        rw [if_neg (by omega)]
  · exact fun data w h s pal out j hj hok =>
      diffusion_alpha floydOffsets data w h s pal out j hj hok
  · exact fun data w h s pal out j hj hok =>
      diffusion_alpha atkinsonOffsets data w h s pal out j hj hok
  · intro data w h s pal m out j hj hok
    exact foldlM_preserves _ (fun d => d[j]? = data[j]?)
      (fun d a t hin hQ => foldlM_preserves _ (fun d2 => d2[j]? = data[j]?)
        (fun d2 x t2 hst hq2 => (orderedStep_alpha w h s pal m d2 x a t2 hst j hj).trans hq2)
        (List.range w) d t hin hQ)
      (List.range h) data out hok rfl

/-- Witness for C8 on concrete runs of all four algorithms. -/
theorem claim_C8_witness :
    (([0, 0, 0, 9] : List ℕ)[3]? = ([1, 2, 3, 9] : List ℕ)[3]?) ∧
    (([0, 0, 0, 77] : List ℕ)[3]? = ([200, 100, 50, 77] : List ℕ)[3]?) ∧
    (([0, 0, 0, 78] : List ℕ)[3]? = ([200, 100, 50, 78] : List ℕ)[3]?) ∧
    (([0, 0, 0, 79] : List ℕ)[3]? = ([200, 100, 50, 79] : List ℕ)[3]?) :=
  ⟨claim_C8_alpha_preserved.1 [1, 2, 3, 9] [(0, 0, 0)] [0, 0, 0, 9] 3 (by decide)
      (by with_unfolding_all rfl),
    claim_C8_alpha_preserved.2.1 [200, 100, 50, 77] 1 1 (1/2) [(0, 0, 0)] [0, 0, 0, 77] 3
      (by decide) (by with_unfolding_all rfl),
    claim_C8_alpha_preserved.2.2.1 [200, 100, 50, 78] 1 1 (1/2) [(0, 0, 0)] [0, 0, 0, 78] 3
      (by decide) (by with_unfolding_all rfl),
    claim_C8_alpha_preserved.2.2.2 [200, 100, 50, 79] 1 1 (1/2) [(0, 0, 0)] [[0, 2], [3, 1]]
      [0, 0, 0, 79] 3 (by decide) (by with_unfolding_all rfl)⟩

/-! The Floyd-Steinberg algorithm as the specification sentence states it:
raster order, observed = stored + accumulated error, quantise via nearest,
error = (observed - quantised) * strength, fractions 7/16 to (x+1,y), 3/16 to
(x-1,y+1), 5/16 to (x,y+1), 1/16 to (x+1,y+1), targets outside
[0,width) x [0,height) silently dropped. -/

/-- Depositing a scaled error at a target coordinate, guarded by membership
in [0,width) x [0,height) as the specification words it. -/
def specDeposit (buf : List JsNum) (x y : ℤ) (err : JsColor) (frac : ℚ)
    (width height : ℕ) : List JsNum :=
  if 0 ≤ x ∧ x < (width : ℤ) ∧ 0 ≤ y ∧ y < (height : ℤ) then
    let idx := ((y * width + x) * 4).toNat
    addErrAt
      (addErrAt (addErrAt buf idx (jsMul err.1 (some frac)))
        (idx + 1) (jsMul err.2.1 (some frac)))
      (idx + 2) (jsMul err.2.2 (some frac))
  else buf

/-- One pixel of the specification text: read stored plus accumulated error,
quantise, store, compute the scaled error, deposit the four fractions. -/
def floydSpecStep (width height : ℕ) (strength : ℚ) (pal : List Color)
    (s : List ℕ × List JsNum) (q : ℕ × ℕ) : Except JsErr (List ℕ × List JsNum) :=
  let x := q.1
  let y := q.2
  let idx := (y * width + x) * 4
  let observed : JsColor :=
    (jsAdd (readByte s.1 idx) (readErr s.2 idx),
     jsAdd (readByte s.1 (idx + 1)) (readErr s.2 (idx + 1)),
     jsAdd (readByte s.1 (idx + 2)) (readErr s.2 (idx + 2)))
  match findClosestPaletteColor observed pal with
  | .error e => .error e
  | .ok c =>
    let err : JsColor :=
      (jsMul (jsSub observed.1 (some (c.1 : ℚ))) (some strength),
       jsMul (jsSub observed.2.1 (some (c.2.1 : ℚ))) (some strength),
       jsMul (jsSub observed.2.2 (some (c.2.2 : ℚ))) (some strength))
    let e1 := specDeposit s.2 ((x : ℤ) + 1) (y : ℤ) err (7/16) width height
    let e2 := specDeposit e1 ((x : ℤ) - 1) ((y : ℤ) + 1) err (3/16) width height
    let e3 := specDeposit e2 (x : ℤ) ((y : ℤ) + 1) err (5/16) width height
    let e4 := specDeposit e3 ((x : ℤ) + 1) ((y : ℤ) + 1) err (1/16) width height
    .ok (writeRGB s.1 idx c, e4)

/-- Floyd-Steinberg as the specification describes it: one pass over the
pixels in raster order starting from a zero error buffer. -/
def floydSpec (data : List ℕ) (width height : ℕ) (strength : ℚ) (pal : List Color) :
    Except JsErr (List ℕ) := do
  let s ← (rasterOrder width height).foldlM (floydSpecStep width height strength pal)
    (data, List.replicate data.length (some (0 : ℚ)))
  pure s.1

theorem foldlM_congr {σ α : Type} (f g : σ → α → Except JsErr σ)
    (hfg : ∀ s a, f s a = g s a) : ∀ (l : List α) (s : σ), l.foldlM f s = l.foldlM g s := by
  intro l
  induction l with
  | nil => intro s; rfl
  | cons a l ih =>
    intro s
    rw [List.foldlM_cons, List.foldlM_cons, hfg s a]
    exact bind_congr fun t => ih t

theorem distributeError_eq_specDeposit (buf : List JsNum) (x y : ℤ) (err : JsColor)
    (frac : ℚ) (width height : ℕ) :
    distributeError buf x y err frac width height = specDeposit buf x y err frac width height := by
  unfold distributeError specDeposit
  by_cases hb : x < 0 ∨ (width : ℤ) ≤ x ∨ y < 0 ∨ (height : ℤ) ≤ y
  · rw [if_pos hb, if_neg (by omega)]
  · rw [if_neg hb, if_pos (by omega)]

theorem diffuseStep_eq_floydSpecStep (width height : ℕ) (strength : ℚ) (pal : List Color)
    (s : List ℕ × List JsNum) (x y : ℕ) :
    diffuseStep floydOffsets width height strength pal s x y =
      floydSpecStep width height strength pal s (x, y) := by
  simp only [diffuseStep, floydSpecStep, floydOffsets, List.foldl_cons, List.foldl_nil]
  cases findClosestPaletteColor
      (jsAdd (readByte s.1 ((y * width + x) * 4)) (readErr s.2 ((y * width + x) * 4)),
       jsAdd (readByte s.1 ((y * width + x) * 4 + 1)) (readErr s.2 ((y * width + x) * 4 + 1)),
       jsAdd (readByte s.1 ((y * width + x) * 4 + 2)) (readErr s.2 ((y * width + x) * 4 + 2)))
      pal with
  | error e => rfl
  | ok c =>
    dsimp only
    rw [distributeError_eq_specDeposit, distributeError_eq_specDeposit,
      distributeError_eq_specDeposit, distributeError_eq_specDeposit]
    have hneg : (x : ℤ) + (-1) = (x : ℤ) - 1 := by ring
    simp only [add_zero, hneg]

/-- C2: the embedded floydSteinbergDithering equals, for every input, the
algorithm the specification sentence describes: raster-order scan, observed
value = stored byte + accumulated error, quantisation via the nearest-color
lookup, error = (observed - quantised) * strength, and deposits of 7/16,
3/16, 5/16, 1/16 of that error at (x+1,y), (x-1,y+1), (x,y+1), (x+1,y+1),
dropping any target outside [0,width) x [0,height). -/
theorem claim_C2_floyd_matches_spec (data : List ℕ) (width height : ℕ) (strength : ℚ)
    (pal : List Color) :
    floydSteinbergDithering data width height strength pal =
      floydSpec data width height strength pal := by
  simp only [floydSteinbergDithering, diffusionDither, floydSpec]
  rw [foldlM_nested_eq_raster]
  have hsteps := foldlM_congr
    (fun s (q : ℕ × ℕ) => diffuseStep floydOffsets width height strength pal s q.1 q.2)
    (floydSpecStep width height strength pal)
    (fun s q => diffuseStep_eq_floydSpecStep width height strength pal s q.1 q.2)
    (rasterOrder width height)
    (data, List.replicate data.length (some (0 : ℚ)))
  rw [hsteps]

/-! Idempotence of flat quantisation: a palette value maps to itself, and a
short final chunk maps to the first palette entry both times (its NaN
distance comparisons are all false). -/

theorem closestLoop_mem (c : JsColor) :
    ∀ (rest : List Color) (best : Color) (bestD : JsNum),
      closestLoop c best bestD rest ∈ best :: rest := by
  intro rest
  induction rest with
  | nil => intro best bestD; simp [closestLoop]
  | cons q qs ih =>
    intro best bestD
    rw [closestLoop]
    by_cases hlt : jsLt (colorDistance c (colorToJs q)) bestD = true
    · rw [if_pos hlt]
      have := ih q (colorDistance c (colorToJs q))
      rcases List.mem_cons.mp this with hq | hq
      · rw [hq]; simp
      · simp [List.mem_cons_of_mem, hq]
    · rw [if_neg hlt]
      have := ih best bestD
      rcases List.mem_cons.mp this with hq | hq
      · rw [hq]; simp
      · simp [List.mem_cons_of_mem, hq]

theorem nearestPure_mem_any (c : JsColor) (p : Color) (ps : List Color) :
    nearestPure c (p :: ps) ∈ p :: ps :=
  closestLoop_mem c ps p (colorDistance c (colorToJs p))

theorem colorDistance_nan (c : JsColor) (hc : c.2.2 = none) (q : JsColor) :
    colorDistance c q = none := by
  unfold colorDistance
  rw [hc]
  have h1 : jsSub none q.2.2 = none := rfl
  rw [h1]
  have h2 : jsMul none none = none := rfl
  rw [h2]
  cases jsAdd (jsMul (jsSub c.1 q.1) (jsSub c.1 q.1))
    (jsMul (jsSub c.2.1 q.2.1) (jsSub c.2.1 q.2.1)) <;> rfl

theorem nearestPure_nan (c : JsColor) (hc : c.2.2 = none) (p : Color) (ps : List Color) :
    nearestPure c (p :: ps) = p := by
  have hrest : ∀ (rest : List Color) (best : Color) (bestD : JsNum),
      closestLoop c best bestD rest = best := by
    intro rest
    induction rest with
    | nil => intro best bestD; rfl
    | cons q qs ih =>
      intro best bestD
      rw [closestLoop]
      rw [colorDistance_nan c hc (colorToJs q)]
      rw [if_neg (by simp [jsLt])]
      exact ih best bestD
  exact hrest ps p (colorDistance c (colorToJs p))

theorem nearestPure_fix (p : Color) (ps : List Color) (v : Color) (hv : v ∈ p :: ps) :
    nearestPure (colorToJs v) (p :: ps) = v := by
  have h := findClosest_fixpoint p ps v hv
  rw [findClosest_cons] at h
  exact Except.ok.inj h

theorem apQuant_idem (p : Color) (ps : List Color) (hWF : PaletteWF (p :: ps)) :
    ∀ (n : ℕ) (data : List ℕ), data.length ≤ n →
      apQuant (p :: ps) (apQuant (p :: ps) data) = apQuant (p :: ps) data := by
  have h0 : apQuant (p :: ps) ([] : List ℕ) = [] := by rw [apQuant]
  obtain ⟨hp1, hp2, hp3⟩ := hWF p (by simp)
  intro n
  induction n with
  | zero =>
    intro data h
    have hdata : data = [] := List.length_eq_zero.mp (Nat.le_zero.mp h)
    subst hdata
    rw [h0, h0]
  | succ n ih =>
    intro data h
    match data with
    | [] => rw [h0, h0]
    | [a] =>
      have hc0 : nearestPure (readRGB [a] 0) (p :: ps) = p := nearestPure_nan _ rfl p ps
      have h1 : apQuant (p :: ps) [a] = [clampByte p.1] := by
        rw [apQuant, hc0]
        have hd : List.drop 4 [a] = ([] : List ℕ) := rfl
        rw [hd, h0]
        rfl
      rw [h1, clampByte_of_le hp1]
      have hc1 : nearestPure (readRGB [p.1] 0) (p :: ps) = p := nearestPure_nan _ rfl p ps
      rw [apQuant, hc1]
      have hd : List.drop 4 [p.1] = ([] : List ℕ) := rfl
      rw [hd, h0]
      show [clampByte p.1] = [p.1]
      rw [clampByte_of_le hp1]
    | [a, b] =>
      have hc0 : nearestPure (readRGB [a, b] 0) (p :: ps) = p := nearestPure_nan _ rfl p ps
      have h1 : apQuant (p :: ps) [a, b] = [clampByte p.1, clampByte p.2.1] := by
        rw [apQuant, hc0]
        have hd : List.drop 4 [a, b] = ([] : List ℕ) := rfl
        rw [hd, h0]
        rfl
      rw [h1, clampByte_of_le hp1, clampByte_of_le hp2]
      have hc1 : nearestPure (readRGB [p.1, p.2.1] 0) (p :: ps) = p :=
        nearestPure_nan _ rfl p ps
      rw [apQuant, hc1]
      have hd : List.drop 4 [p.1, p.2.1] = ([] : List ℕ) := rfl
      rw [hd, h0]
      show [clampByte p.1, clampByte p.2.1] = [p.1, p.2.1]
      rw [clampByte_of_le hp1, clampByte_of_le hp2]
    | [a, b, c] =>
      obtain ⟨c0, hc0⟩ : ∃ c0, nearestPure (readRGB [a, b, c] 0) (p :: ps) = c0 := ⟨_, rfl⟩
      have hmem : c0 ∈ p :: ps := hc0 ▸ nearestPure_mem_any _ p ps
      obtain ⟨h1, h2, h3⟩ := hWF c0 hmem
      have hfirst : apQuant (p :: ps) [a, b, c] = [c0.1, c0.2.1, c0.2.2] := by
        rw [apQuant, hc0]
        have hd : List.drop 4 [a, b, c] = ([] : List ℕ) := rfl
        rw [hd, h0]
        have hw : writeRGB (List.take 4 [a, b, c]) 0 c0 =
            [clampByte c0.1, clampByte c0.2.1, clampByte c0.2.2] := rfl
        rw [hw, clampByte_of_le h1, clampByte_of_le h2, clampByte_of_le h3]
        rfl
      rw [hfirst]
      have hc1 : nearestPure (readRGB [c0.1, c0.2.1, c0.2.2] 0) (p :: ps) = c0 := by
        have hr : readRGB [c0.1, c0.2.1, c0.2.2] 0 = colorToJs c0 := rfl
        rw [hr]
        exact nearestPure_fix p ps c0 hmem
      rw [apQuant, hc1]
      have hd : List.drop 4 [c0.1, c0.2.1, c0.2.2] = ([] : List ℕ) := rfl
      rw [hd, h0]
      have hw : writeRGB (List.take 4 [c0.1, c0.2.1, c0.2.2]) 0 c0 =
          [clampByte c0.1, clampByte c0.2.1, clampByte c0.2.2] := rfl
      rw [hw, clampByte_of_le h1, clampByte_of_le h2, clampByte_of_le h3]
      rfl
    | a :: b :: c :: d :: rest =>
      simp only [List.length_cons] at h
      obtain ⟨c0, hc0⟩ : ∃ c0, nearestPure (readRGB (a :: b :: c :: d :: rest) 0) (p :: ps) = c0 :=
        ⟨_, rfl⟩
      have hmem : c0 ∈ p :: ps := hc0 ▸ nearestPure_mem_any _ p ps
      obtain ⟨h1, h2, h3⟩ := hWF c0 hmem
      have hfirst : apQuant (p :: ps) (a :: b :: c :: d :: rest) =
          c0.1 :: c0.2.1 :: c0.2.2 :: d :: apQuant (p :: ps) rest := by
        rw [apQuant, hc0]
        have hd4 : List.drop 4 (a :: b :: c :: d :: rest) = rest := rfl
        rw [hd4]
        have hw : writeRGB (List.take 4 (a :: b :: c :: d :: rest)) 0 c0 =
            [clampByte c0.1, clampByte c0.2.1, clampByte c0.2.2, d] := rfl
        rw [hw, clampByte_of_le h1, clampByte_of_le h2, clampByte_of_le h3]
        rfl
      rw [hfirst]
      have hc1 : nearestPure
          (readRGB (c0.1 :: c0.2.1 :: c0.2.2 :: d :: apQuant (p :: ps) rest) 0) (p :: ps) =
            c0 := by
        have hr : readRGB (c0.1 :: c0.2.1 :: c0.2.2 :: d :: apQuant (p :: ps) rest) 0 =
            colorToJs c0 := rfl
        rw [hr]
        exact nearestPure_fix p ps c0 hmem
      rw [apQuant, hc1]
      have hd4 : List.drop 4 (c0.1 :: c0.2.1 :: c0.2.2 :: d :: apQuant (p :: ps) rest) =
          apQuant (p :: ps) rest := rfl
      rw [hd4]
      have hw : writeRGB
          (List.take 4 (c0.1 :: c0.2.1 :: c0.2.2 :: d :: apQuant (p :: ps) rest)) 0 c0 =
            [clampByte c0.1, clampByte c0.2.1, clampByte c0.2.2, d] := rfl
      rw [hw, clampByte_of_le h1, clampByte_of_le h2, clampByte_of_le h3]
      rw [ih rest (by omega)]
      rfl

/-- C9: flat quantisation is idempotent.  If applyPalette maps a buffer to
out under a nonempty byte-valued palette, applying it again to out returns
out unchanged: quantised chunks hold exact palette values, which are fixed
points of the nearest-color lookup, and a short final chunk falls back to the
first palette entry both times. -/
theorem claim_C9_idempotent (data : List ℕ) (pal : List Color) (hp : pal ≠ [])
    (hWF : PaletteWF pal) (out : List ℕ) (hout : applyPalette data pal = .ok out) :
    applyPalette out pal = .ok out := by
  rcases pal with _ | ⟨p, ps⟩
  · exact absurd rfl hp
  rw [applyPalette_apQuant p ps data.length data le_rfl] at hout
  have hinj := Except.ok.inj hout
  rw [applyPalette_apQuant p ps out.length out le_rfl]
  rw [← hinj]
  rw [apQuant_idem p ps hWF data.length data le_rfl]

/-- Witness for C9: the round-trip scenario buffer quantised to black stays
fixed under a second application. -/
theorem claim_C9_witness :
    applyPalette [0, 0, 0, 255] [(0, 0, 0), (255, 255, 255)] = .ok [0, 0, 0, 255] :=
  claim_C9_idempotent [200, 100, 50, 255] [(0, 0, 0), (255, 255, 255)] (by decide)
    (by unfold PaletteWF; decide) [0, 0, 0, 255] (by with_unfolding_all rfl)

end I2P
